import Mathlib

/-! lumail: message state encoded in Maildir paths

A shallow embedding of `CMessage` (src/message.cc): the flag decoder `flags`,
the flag mutators `add_flag` and `remove_flag`, `is_new`, `mark_read`,
`mark_new`, `matches_filter`, `date` and `format`; of the operations of
src/bindings.cc and src/screen.cc on the navigation state; and of the line
editor `CScreen::readline` (src/screen.cc, src/history.cc).

Conventions of the embedding

* A `std::string` is the list of its characters (`List Char`); one Lean `Char`
  stands for one C++ `char` (a byte), and `std::sort` orders them as `char`
  values: `char` is signed, so the bytes from 0x80 up come before ASCII.
* `std::string::npos` is `none`; `s.substr(k)` is `s.drop k` and
  `s.substr(0,k)` is `s.take k`; `toupper` is `Char.toUpper` (the C locale).
* Loops whose termination depends on the data take a `fuel` argument that
  bounds the number of iterations; `none` means the fuel ran out.
* The file system is not part of the message object.  `CFile::move`
  (declared in file.h) and POSIX `rename` are parameters telling whether the
  rename of one path to another succeeds; every call is recorded, with its
  result, in the `renames` log of the returned `Step`.
-/

namespace Lumail

/-! ## Strings -/

/-- The Maildir flag marker, the literal ":2," of the source. -/
abbrev MARKER : List Char := [':', '2', ',']

/-- The directory segment "/new/". -/
abbrev NEW_DIR : List Char := ['/', 'n', 'e', 'w', '/']

/-- The directory segment "/cur/". -/
abbrev CUR_DIR : List Char := ['/', 'c', 'u', 'r', '/']

/-- The NUL character that ends a C string. -/
abbrev NUL : Char := Char.ofNat 0

/-- A C string: no NUL among its characters.  Message paths are C strings:
they are read from directory entries or handed over as `const char *`. -/
def IsCString (s : List Char) : Prop := NUL ∉ s

instance (s : List Char) : Decidable (IsCString s) :=
  inferInstanceAs (Decidable (NUL ∉ s))

/-- The method `std::string::find(const char *)`: the index of the first
occurrence of `needle` in `s`, `none` for `npos`. -/
def find : List Char → List Char → Option Nat
  | [], needle => if needle.isEmpty then some 0 else none
  | c :: cs, needle =>
    if needle.isPrefixOf (c :: cs) then some 0 else (find cs needle).map (· + 1)

/-- The method `std::string::find(char)` from position 0. -/
def find_char : List Char → Char → Option Nat
  | [], _ => none
  | x :: xs, c => if x = c then some 0 else (find_char xs c).map (· + 1)

/-- The method `std::string::find(char, k)`: first index at or after `k`. -/
def find_char_from (s : List Char) (c : Char) (k : Nat) : Option Nat :=
  (find_char (s.drop k) c).map (· + k)

/-- The C function `strlen` applied to `s.c_str()`: the number of characters
before the first NUL. -/
def strlen (s : List Char) : Nat := (s.takeWhile (· != NUL)).length

/-- The value of the `char` a Lean `Char` stands for.  `char` is signed on
the platform the program is built for (x86-64): a byte from 0x80 up has the
value byte - 256, below every ASCII character.  A Lean `Char` that is not a
byte stands for no `char`; it is given a value below all of them, so that
distinct characters keep distinct values. -/
def char_value (c : Char) : Int :=
  if c.toNat < 128 then c.toNat
  else if c.toNat < 256 then (c.toNat : Int) - 256
  else (c.toNat : Int) - 1114368

/-- The algorithm `std::sort` on characters: the arrangement that ascends in
the order of `char`, which compares the values `char_value`. -/
def sort (s : List Char) : List Char :=
  List.insertionSort (fun a b => char_value a ≤ char_value b) s

/-- The algorithm `std::unique` followed by `erase`: every run of equal
adjacent characters is reduced to its first element. -/
def unique : List Char → List Char
  | [] => []
  | [x] => [x]
  | x :: y :: rest => if x = y then unique (y :: rest) else x :: unique (y :: rest)

/-! ## The message object -/

/-- The state of a `CMessage` that the flag codec reads and writes: `m_path`.
(The lazily parsed MIME handle `m_me` plays no part in it.) -/
structure CMessage where
  m_path : List Char
deriving DecidableEq, Repr

/-- One call of `CFile::move` or `rename`: source, destination, success. -/
structure RenameCall where
  src : List Char
  dst : List Char
  ok : Bool
deriving DecidableEq, Repr

/-- The outcome of a mutating method: the message afterwards and the renames
it requested, in order. -/
structure Step where
  msg : CMessage
  renames : List RenameCall
deriving DecidableEq, Repr

namespace CMessage

/-- The getter `CMessage::path()`. -/
def path (self : CMessage) : List Char := self.m_path

/-- The setter `CMessage::path(new_path)`. -/
def set_path (_self : CMessage) (new_path : List Char) : CMessage := ⟨new_path⟩

/-- The padding loop of `CMessage::flags`:
`while ((int)strlen(flags.c_str()) < 4) flags += " ";`. -/
def pad : Nat → List Char → Option (List Char)
  | 0, _ => none
  | fuel + 1, flags => if strlen flags < 4 then pad fuel (flags ++ [' ']) else some flags

/-- The method `CMessage::flags` (message.cc 82-117). -/
def flags (fuel : Nat) (self : CMessage) : Option (List Char) :=
  let pth := self.path
  if pth.isEmpty then some []
  else
    let flags0 : List Char :=
      match find pth MARKER with
      | some offset => pth.drop (offset + 3)
      | none => []
    let flags1 : List Char := if flags0.length > 3 then [] else flags0
    let flags2 : List Char := if (find pth NEW_DIR).isSome then flags1 ++ ['N'] else flags1
    pad fuel (unique (sort flags2))

/-- The value of the local variable `flags` of `CMessage::flags` when the
sorting step is reached: the text after the marker (dropped when longer than
three characters), with "N" appended for a path through "/new/". -/
def raw_flags (pth : List Char) : List Char :=
  let flags0 : List Char :=
    match find pth MARKER with
    | some offset => pth.drop (offset + 3)
    | none => []
  let flags1 : List Char := if flags0.length > 3 then [] else flags0
  if (find pth NEW_DIR).isSome then flags1 ++ ['N'] else flags1

/-- The method `CMessage::add_flag` (message.cc 123-181).  The value returned
by `CFile::move` is not looked at; it is only recorded in the log. -/
def add_flag (fuel : Nat) (move : List Char → List Char → Bool) (self : CMessage)
    (c : Char) : Option Step :=
  let c := c.toUpper
  match self.flags fuel with
  | none => none
  | some fl =>
    if (find_char fl c).isNone then some ⟨self, []⟩
    else
      let p := self.path
      if p.isEmpty then some ⟨self, []⟩
      else
        let split : List Char × List Char :=
          match find p MARKER with
          | some offset => (p.take offset, p.drop offset)
          | none => (p, MARKER)
        let base := split.1
        let flags0 := split.2
        let flags1 := if (find p NEW_DIR).isSome then flags0 ++ ['N'] else flags0
        let flags2 := flags1 ++ [c]
        let ok := move p (base ++ flags2)
        some ⟨self.set_path (base ++ flags2), [⟨p, base ++ flags2, ok⟩]⟩

/-- The erasing loop of `CMessage::remove_flag`:
`while ((k = flags.find(c,k)) != flags.npos) flags.erase(k, 1);`. -/
def erase_loop : Nat → Char → List Char → Nat → Option (List Char)
  | 0, _, _, _ => none
  | fuel + 1, c, flags, k =>
    match find_char_from flags c k with
    | none => some flags
    | some k1 => erase_loop fuel c (flags.eraseIdx k1) k1

/-- The method `CMessage::remove_flag` (message.cc 187-245).  The value
returned by `CFile::move` is not looked at; it is only recorded in the log. -/
def remove_flag (fuel : Nat) (move : List Char → List Char → Bool) (self : CMessage)
    (c : Char) : Option Step :=
  let c := c.toUpper
  match self.flags fuel with
  | none => none
  | some fl =>
    if (find_char fl c).isNone then some ⟨self, []⟩
    else
      let p := self.path
      if p.isEmpty then some ⟨self, []⟩
      else
        let split : List Char × List Char :=
          match find p MARKER with
          | some offset => (p.take offset, p.drop offset)
          | none => (p, MARKER)
        let base := split.1
        match erase_loop fuel c split.2 0 with
        | none => none
        | some flags1 =>
          let ok := move p (base ++ flags1)
          some ⟨self.set_path (base ++ flags1), [⟨p, base ++ flags1, ok⟩]⟩

/-- The method `CMessage::is_new` (message.cc 277-284). -/
def is_new (fuel : Nat) (self : CMessage) : Option Bool :=
  (self.flags fuel).map (fun f => (find_char f 'N').isSome)

/-- The method `CMessage::mark_read` (message.cc 290-330): the returned
boolean and the step taken. -/
def mark_read (fuel : Nat) (rename move : List Char → List Char → Bool)
    (self : CMessage) : Option (Bool × Step) :=
  let c_path := self.path
  match find c_path NEW_DIR with
  | some offset =>
    let before := c_path.take offset
    let after := c_path.drop (offset + 5)
    let n_path := before ++ CUR_DIR ++ after
    if rename c_path n_path then
      some (true, ⟨self.set_path n_path, [⟨c_path, n_path, true⟩]⟩)
    else
      some (false, ⟨self, [⟨c_path, n_path, false⟩]⟩)
  | none =>
    match self.remove_flag fuel move 'N' with
    | none => none
    | some st => some (true, st)

/-- The method `CMessage::mark_new` (message.cc 336-374): the returned
boolean and the step taken. -/
def mark_new (fuel : Nat) (rename move : List Char → List Char → Bool)
    (self : CMessage) : Option (Bool × Step) :=
  let c_path := self.path
  match find c_path CUR_DIR with
  | some offset =>
    let before := c_path.take offset
    let after := c_path.drop (offset + 5)
    let n_path := before ++ NEW_DIR ++ after
    if rename c_path n_path then
      some (true, ⟨self.set_path n_path, [⟨c_path, n_path, true⟩]⟩)
    else
      some (false, ⟨self, [⟨c_path, n_path, false⟩]⟩)
  | none =>
    match self.add_flag fuel move 'N' with
    | none => none
    | some st => some (true, st)

end CMessage

/-! ## Notions of the specification -/

/-- Removal of the trailing space padding of a flag string. -/
def rstrip (s : List Char) : List Char := (s.reverse.dropWhile (· == ' ')).reverse

/-- A valid flag set: upper-case letters, sorted ascending, no duplicate. -/
def ValidFlags (F : List Char) : Prop :=
  F.Pairwise (· < ·) ∧ ∀ c ∈ F, c.isUpper = true

instance (F : List Char) : Decidable (ValidFlags F) :=
  inferInstanceAs (Decidable (F.Pairwise (· < ·) ∧ ∀ c ∈ F, c.isUpper = true))

/-- The text after the first occurrence of `needle` in a string, when there
is one. -/
def text_after (needle : List Char) : List Char → Option (List Char)
  | [] => if needle = [] then some [] else none
  | c :: cs =>
    if needle <+: c :: cs then some ((c :: cs).drop needle.length)
    else text_after needle cs

/-- Reference definition of the flag string, in the words of the
specification: the raw flags are the text after the first ":2," (none without
the marker, none when longer than three characters); "N" is added for a path
through "/new/"; the set is sorted ascending (as `char` values) without
duplicates and padded on the right with spaces to the display width 4. -/
def flags_reference (p : List Char) : List Char :=
  let raw : List Char := (text_after MARKER p).getD []
  let kept : List Char := if raw.length > 3 then [] else raw
  let effective : List Char := if NEW_DIR <:+: p then kept ++ ['N'] else kept
  let set : List Char := (effective.mergeSort (fun a b => decide (char_value a ≤ char_value b))).dedup
  set ++ List.replicate (4 - set.length) ' '

/-! ## Filtering a message -/

/-- The method `std::string::c_str` as the C library reads its result: the
characters before the first NUL. -/
def c_str (s : List Char) : List Char := s.takeWhile (· != NUL)

/-- The test `strstr(hay.c_str(), needle.c_str()) != NULL`. -/
def strstr (hay needle : List Char) : Bool := (find (c_str hay) (c_str needle)).isSome

namespace CMessage

/-- The method `CMessage::matches_filter` (message.cc 251-271).  The argument
`format` gives the string that `CMessage::format()` returns for a message; it
is built from the headers of the message file, which are not part of the
message state. -/
def matches_filter (fuel : Nat) (format : CMessage → List Char) (self : CMessage)
    (filter : List Char) : Option Bool :=
  if c_str filter = ['a', 'l', 'l'] then some true
  else if c_str filter = ['n', 'e', 'w'] then
    match self.is_new fuel with
    | none => none
    | some b => if b then some true else some false
  else
    let formatted := format self
    if strstr formatted filter then some true else some false

end CMessage

/-! ## The navigation state

Values of type `int` are modelled by `Int`: cursor arithmetic is exact as
long as it stays within the range of `int` (signed overflow is undefined in
C++).  The Lua callbacks run by some operations (`on_folder_selection`) belong
to the scripting layer and are not modelled. -/

/-- How a call ends: by returning, by a vector read outside its bounds (an
exception for `at`, undefined behaviour for `[]`), by the use of a null
pointer, or by a Lua error raised with `luaL_error`. -/
inductive Result (α : Type) where
  | ok (a : α)
  | out_of_range
  | null_pointer
  | lua_error
deriving DecidableEq, Repr

/-- Reading a `std::vector` at an `int` index: `none` outside the bounds. -/
def vector_at {α : Type} (v : List α) (i : Int) : Option α :=
  if i < 0 then none else v[i.toNat]?

/-- Modelled from the spec: the class `CGlobal` (global.h, global.cc) is not
among the sources.  It holds the navigation state of the specification: the
visible folder list returned by `get_folders()` (as paths), the set
`selected_folders`, the aggregated message list returned by `get_messages()`
(`none` for a NULL pointer), the two cursors and the scroll offset of the
message view. -/
structure CGlobal where
  folders : List (List Char)
  selected_folders : List (List Char)
  messages : Option (List CMessage)
  selected_folder : Int
  selected_message : Int
  message_offset : Int
deriving DecidableEq, Repr

namespace CGlobal

/-- Modelled from the spec: `CGlobal::set_selected_folder` stores the cursor
of the folder list as given. -/
def set_selected_folder (g : CGlobal) (offset : Int) : CGlobal :=
  ⟨g.folders, g.selected_folders, g.messages, offset, g.selected_message, g.message_offset⟩

/-- Modelled from the spec: `CGlobal::set_selected_message` stores the cursor
of the message list as given. -/
def set_selected_message (g : CGlobal) (offset : Int) : CGlobal :=
  ⟨g.folders, g.selected_folders, g.messages, g.selected_folder, offset, g.message_offset⟩

/-- Modelled from the spec: `CGlobal::set_message_offset` stores the scroll
offset of the message view as given. -/
def set_message_offset (g : CGlobal) (offset : Int) : CGlobal :=
  ⟨g.folders, g.selected_folders, g.messages, g.selected_folder, g.selected_message, offset⟩

/-- Modelled from the spec: `CGlobal::unset_folders` empties the set of
selected folders. -/
def unset_folders (g : CGlobal) : CGlobal :=
  ⟨g.folders, [], g.messages, g.selected_folder, g.selected_message, g.message_offset⟩

/-- Modelled from the spec: `CGlobal::add_folder` puts a path into the set of
selected folders (membership only). -/
def add_folder (g : CGlobal) (path : List Char) : CGlobal :=
  ⟨g.folders, if path ∈ g.selected_folders then g.selected_folders
      else g.selected_folders ++ [path],
    g.messages, g.selected_folder, g.selected_message, g.message_offset⟩

/-- Modelled from the spec: `CGlobal::update_messages` rebuilds the message
list from the files of the selected folders; `rebuilt` is the list the file
system yields.  Nothing else of the state is rebuilt. -/
def update_messages (g : CGlobal) (rebuilt : List CMessage) : CGlobal :=
  ⟨g.folders, g.selected_folders, some rebuilt, g.selected_folder, g.selected_message,
    g.message_offset⟩

end CGlobal

/-! ## Cursor operations (bindings.cc) -/

/-- The function `scroll_maildir_down` (bindings.cc 535-547). -/
def scroll_maildir_down (step : Int) (g : CGlobal) : CGlobal :=
  let cur := g.selected_folder + step
  g.set_selected_folder cur

/-- The function `scroll_maildir_up` (bindings.cc 553-567). -/
def scroll_maildir_up (step : Int) (g : CGlobal) : CGlobal :=
  let cur := g.selected_folder - step
  let cur := if cur < 0 then 0 else cur
  g.set_selected_folder cur

/-- The function `jump_maildir_to` (bindings.cc 573-580). -/
def jump_maildir_to (offset : Int) (g : CGlobal) : CGlobal :=
  g.set_selected_folder offset

/-- The function `scroll_index_down` (bindings.cc 586-603). -/
def scroll_index_down (step : Int) (g : CGlobal) : CGlobal :=
  let cur := g.selected_message + step
  (g.set_selected_message cur).set_message_offset 0

/-- The function `scroll_index_up` (bindings.cc 609-628). -/
def scroll_index_up (step : Int) (g : CGlobal) : CGlobal :=
  let cur := g.selected_message - step
  let cur := if cur < 0 then 0 else cur
  (g.set_selected_message cur).set_message_offset 0

/-- The function `jump_index_to` (bindings.cc 668-681). -/
def jump_index_to (offset : Int) (g : CGlobal) : CGlobal :=
  (g.set_selected_message offset).set_message_offset 0

/-- How the search loop ends: normally, with the index it selected (if any)
and the indices whose items it examined, in order; or by reading the list
outside its bounds. -/
inductive SearchEnd where
  | finished (found : Option Int) (examined : List Int)
  | out_of_range (index : Int)
deriving DecidableEq, Repr

/-- The search loop of `scroll_maildir_to` (bindings.cc 698-718) and of
`scroll_index_to` (bindings.cc 1178-1197), which are the same loop over the
folder paths and over the formatted messages:
`while (i != selected) { if (i >= max) break; ... i += 1; if (i >= max) i = 0; }`. -/
def search_loop (items : List (List Char)) (str : List Char) (max selected : Int) :
    Nat → Int → List Int → Option SearchEnd
  | 0, _, _ => none
  | fuel + 1, i, examined =>
    if i = selected then some (SearchEnd.finished none examined)
    else if i ≥ max then some (SearchEnd.finished none examined)
    else
      match vector_at items i with
      | none => some (SearchEnd.out_of_range i)
      | some cur =>
        if strstr cur str then some (SearchEnd.finished (some i) (examined ++ [i]))
        else
          let i1 := i + 1
          search_loop items str max selected fuel (if i1 ≥ max then 0 else i1)
            (examined ++ [i])

/-- The function `scroll_maildir_to` (bindings.cc 687-720), called with a
pattern (without one it raises a Lua error before reading the state). -/
def scroll_maildir_to (fuel : Nat) (str : List Char) (g : CGlobal) : Option (Result CGlobal) :=
  let display := g.folders
  let max : Int := display.length
  let selected := g.selected_folder
  match search_loop display str max selected fuel (selected + 1) [] with
  | none => none
  | some (SearchEnd.out_of_range _) => some Result.out_of_range
  | some (SearchEnd.finished (some i) _) => some (Result.ok (g.set_selected_folder i))
  | some (SearchEnd.finished none _) => some (Result.ok g)

/-- The function `scroll_index_to` (bindings.cc 1158-1204), called with a
pattern (without one it raises a Lua error before reading the state);
`format` gives the string `CMessage::format()` returns for a message. -/
def scroll_index_to (fuel : Nat) (format : CMessage → List Char) (str : List Char)
    (g : CGlobal) : Option (Result CGlobal) :=
  match g.messages with
  | none => some (Result.ok g)
  | some messages =>
    let max : Int := messages.length
    let selected := g.selected_message
    match search_loop (messages.map format) str max selected fuel (selected + 1) [] with
    | none => none
    | some (SearchEnd.out_of_range _) => some Result.out_of_range
    | some (SearchEnd.finished (some i) _) =>
      some (Result.ok ((g.set_selected_message i).set_message_offset 0))
    | some (SearchEnd.finished none _) => some (Result.ok (g.set_message_offset 0))

/-- The function `clear_selected_folders` (bindings.cc 1237-1251); `rebuilt`
is the message list `update_messages` finds. -/
def clear_selected_folders (rebuilt : List CMessage) (g : CGlobal) : CGlobal :=
  ((g.unset_folders).set_selected_message 0).update_messages rebuilt

/-- The function `add_selected_folder` (bindings.cc 1257-1300); `str` is the
optional argument, `rebuilt` the message list `update_messages` finds. -/
def add_selected_folder (rebuilt : List CMessage) (str : Option (List Char)) (g : CGlobal) :
    Result CGlobal :=
  match str with
  | none =>
    let selected := g.selected_folder
    let display := g.folders
    if display.length = 0 then Result.ok g
    else
      match vector_at display selected with
      | none => Result.out_of_range
      | some path =>
        Result.ok (((g.add_folder path).set_selected_message 0).update_messages rebuilt)
  | some path =>
    Result.ok (((g.add_folder path).set_selected_message 0).update_messages rebuilt)

/-! ## The bounding of the cursors while drawing (screen.cc) -/

/-- The effect of `CScreen::drawMaildir` on the state (screen.cc 89-110): the
bounding of the folder cursor.  The rows printed afterwards leave the state
alone. -/
def drawMaildir (g : CGlobal) : CGlobal :=
  let count : Int := g.folders.length
  let selected := g.selected_folder
  if count < 1 then g
  else if selected ≥ count then g.set_selected_folder 0
  else g

/-- The effect of `CScreen::drawIndex` on the state (screen.cc 189-253): the
bounding of the message cursor.  The rows printed afterwards leave the state
alone. -/
def drawIndex (g : CGlobal) : CGlobal :=
  match g.messages with
  | none => g
  | some messages =>
    if messages.length < 1 then g
    else
      let count : Int := messages.length
      let selected := g.selected_message
      if selected ≥ count then g.set_selected_message (count - 1)
      else g

/-- The effect of `CScreen::drawMessage` on the state (screen.cc 330-364): the
bounding of the message cursor, then the read of the selected message with
`at`.  What is printed afterwards leaves the state alone. -/
def drawMessage (g : CGlobal) : Result CGlobal :=
  match g.messages with
  | none => Result.null_pointer
  | some messages =>
    let count : Int := messages.length
    let selected := g.selected_message
    let bounded : Int × CGlobal :=
      if selected ≥ count then (count - 1, g.set_selected_message (count - 1))
      else (selected, g)
    if bounded.1 < count ∧ count > 0 then
      match vector_at messages bounded.1 with
      | none => Result.out_of_range
      | some _ => Result.ok bounded.2
    else Result.ok bounded.2

/-! ## Folder selection, lookup of the current message, saving (bindings.cc) -/

/-- Modelled from the spec: `CGlobal::remove_folder` takes a path out of the
set of selected folders. -/
def CGlobal.remove_folder (g : CGlobal) (path : List Char) : CGlobal :=
  ⟨g.folders, g.selected_folders.filter (fun q => q != path), g.messages, g.selected_folder,
    g.selected_message, g.message_offset⟩

/-- The function `toggle_selected_folder` (bindings.cc 1355-1397); `str` is
the optional argument, `rebuilt` the message list `update_messages` finds. -/
def toggle_selected_folder (rebuilt : List CMessage) (str : Option (List Char))
    (g : CGlobal) : Result CGlobal :=
  let sfolders := g.selected_folders
  let finish (toggle : List Char) : Result CGlobal :=
    let g1 := if toggle ∈ sfolders then g.remove_folder toggle else g.add_folder toggle
    Result.ok (g1.update_messages rebuilt)
  match str with
  | none =>
    let display := g.folders
    if display.length = 0 then Result.ok g
    else
      let selected := g.selected_folder
      match vector_at display selected with
      | none => Result.out_of_range
      | some toggle => finish toggle
  | some toggle => finish toggle

/-- The function `get_message_for_operation` (bindings.cc 68-105): the message
for an explicit path, else the selected message; `none` is the NULL result. -/
def get_message_for_operation (path : Option (List Char)) (g : CGlobal) :
    Result (Option CMessage) :=
  match path with
  | some p => Result.ok (some ⟨p⟩)
  | none =>
    match g.messages with
    | none => Result.null_pointer
    | some messages =>
      let count : Int := messages.length
      let selected := g.selected_message
      if count < 1 ∨ selected > count then Result.ok none
      else
        match vector_at messages selected with
        | none => Result.out_of_range
        | some m => Result.ok (some m)

/-- The function `current_message` (bindings.cc 892-921): the path pushed to
Lua, empty when there is no message. -/
def current_message (g : CGlobal) : Result (List Char) :=
  match g.messages with
  | none => Result.null_pointer
  | some messages =>
    let count : Int := messages.length
    let selected := g.selected_message
    if count < 1 ∨ selected > count then Result.ok []
    else
      match vector_at messages selected with
      | none => Result.out_of_range
      | some cur => Result.ok cur.path

/-- A request made to the file system by `save_message`: a copy, with its
outcome, or the removal of a file. -/
inductive FileCall where
  | copy (src dst : List Char) (ok : Bool)
  | unlink (path : List Char)
deriving DecidableEq, Repr

/-- The function `save_message` (bindings.cc 1101-1152), called with a
destination `str`.  `is_directory` tells what `CFile::is_directory(str)`
answers, `message_in` is `CMaildir::message_in` (the file name generated in
the destination, empty when none can be), `copy` tells whether
`CFile::copy` succeeds (file.h and maildir.h are not among the sources), and
`rebuilt` is the message list `update_messages` finds.  The result holds the
requests made to the file system, in order, and the state afterwards. -/
def save_message (fuel : Nat) (is_directory : Bool)
    (message_in : List Char → Bool → List Char) (copy : List Char → List Char → Bool)
    (rebuilt : List CMessage) (str : List Char) (g : CGlobal) :
    Option (Result (List FileCall × CGlobal)) :=
  if !is_directory then some Result.lua_error
  else
    match get_message_for_operation none g with
    | Result.out_of_range => some Result.out_of_range
    | Result.null_pointer => some Result.null_pointer
    | Result.lua_error => some Result.lua_error
    | Result.ok none => some (Result.ok ([], g))
    | Result.ok (some msg) =>
      let source := msg.path
      match msg.is_new fuel with
      | none => none
      | some new =>
        let dest := message_in str new
        let copied := copy source dest
        some (Result.ok ([FileCall.copy source dest copied, FileCall.unlink source],
          g.update_messages rebuilt))

/-! ## Formatting a message (message.cc) -/

/-- What the file of a message yields to `CMessage`: the header values read
through the MIME parser (empty when the header is missing), the text `ctime`
gives for the modification time when `stat` succeeds, the value of
`tm.tm_mday` after each `strptime` call of `parseDateFmt` (one per configured
date format, in order), and whether the pointer `tm`, left uninitialised when
there is no Date header and `stat` fails, happens not to be null. -/
structure MessageFile where
  hdr_from : List Char
  hdr_to : List Char
  hdr_subject : List Char
  hdr_date : List Char
  mtime : Option (List Char)
  strptime_mday : List Int
  stale_tm : Bool
deriving DecidableEq, Repr

/-- The enumeration `CMessage::TDate` (message.h), as message.cc uses it. -/
inductive TDate where
  | EDATE
  | EYEAR
  | EMONTH
  | EDAY
deriving DecidableEq, Repr

/-- The function `parseDateFmt` (message.cc 478-494): true when it returns the
address of its `tm`, false when it returns NULL. -/
def parseDateFmt : List Int → Bool
  | [] => false
  | mday :: rest => if mday ≠ 0 then true else parseDateFmt rest

namespace CMessage

/-- The method `CMessage::date` (message.cc 499-536).  After
`memset(&tm, 0, 20)` the pointer `tm` is null, so the year is read through a
null pointer. -/
def date (file : MessageFile) (fmt : TDate) : Result (List Char) :=
  let date0 := file.hdr_date
  let st : List Char × Bool :=
    if date0.isEmpty then
      match file.mtime with
      | some text => (text, true)
      | none => (date0, file.stale_tm)
    else (date0, parseDateFmt file.strptime_mday)
  if fmt = TDate.EDATE then Result.ok st.1
  else if st.2 then
    if fmt = TDate.EYEAR then Result.null_pointer else Result.ok []
  else Result.ok []

/-- The table `fields` of `CMessage::format`: the tokens, in the order of the
passes. -/
def fields : List (List Char) :=
  [['F', 'L', 'A', 'G', 'S'], ['F', 'R', 'O', 'M'], ['T', 'O'],
   ['S', 'U', 'B', 'J', 'E', 'C', 'T'], ['D', 'A', 'T', 'E'], ['Y', 'E', 'A', 'R'],
   ['M', 'O', 'N', 'T', 'H'], ['D', 'A', 'Y']]

/-- The value `body` that `CMessage::format` puts in place of a token
(message.cc 414-443); exactly one of the comparisons of the source holds. -/
def expand_body (fuel : Nat) (file : MessageFile) (self : CMessage) (name : List Char) :
    Option (Result (List Char)) :=
  if name = ['T', 'O'] then some (Result.ok file.hdr_to)
  else if name = ['D', 'A', 'T', 'E'] then some (date file TDate.EDATE)
  else if name = ['F', 'R', 'O', 'M'] then some (Result.ok ([] ++ file.hdr_from))
  else if name = ['F', 'L', 'A', 'G', 'S'] then
    match self.flags fuel with
    | none => none
    | some f => some (Result.ok f)
  else if name = ['S', 'U', 'B', 'J', 'E', 'C', 'T'] then some (Result.ok file.hdr_subject)
  else if name = ['Y', 'E', 'A', 'R'] then some (date file TDate.EYEAR)
  else if name = ['M', 'O', 'N', 'T', 'H'] then some (date file TDate.EMONTH)
  else if name = ['D', 'A', 'Y'] then some (date file TDate.EDAY)
  else some (Result.ok [])

/-- One pass of the loop of `CMessage::format` (message.cc 404-447), for the
token `name`.  The length `offset-1` is computed in `size_t`: for offset 0 it
is the largest value, and `substr` then keeps the whole string. -/
def format_pass (fuel : Nat) (file : MessageFile) (self : CMessage) (result : List Char)
    (name : List Char) : Option (Result (List Char)) :=
  match find result name with
  | none => some (Result.ok result)
  | some offset =>
    if offset < result.length then
      let before := result.take ((offset + 18446744073709551615) % 18446744073709551616)
      let after := result.drop (offset + name.length)
      match expand_body fuel file self name with
      | none => none
      | some (Result.ok body) => some (Result.ok (before ++ body ++ after))
      | some Result.out_of_range => some Result.out_of_range
      | some Result.null_pointer => some Result.null_pointer
      | some Result.lua_error => some Result.lua_error
    else some (Result.ok result)

/-- The loop of `CMessage::format` over the tokens still to be tried. -/
def format_loop (fuel : Nat) (file : MessageFile) (self : CMessage) :
    List (List Char) → List Char → Option (Result (List Char))
  | [], result => some (Result.ok result)
  | name :: rest, result =>
    match format_pass fuel file self result name with
    | none => none
    | some (Result.ok next) => format_loop fuel file self rest next
    | some Result.out_of_range => some Result.out_of_range
    | some Result.null_pointer => some Result.null_pointer
    | some Result.lua_error => some Result.lua_error

/-- The method `CMessage::format` (message.cc 380-449); `index_format` is the
value of the global variable of that name, used for an empty template. -/
def format (fuel : Nat) (index_format : List Char) (file : MessageFile) (self : CMessage)
    (fmt : List Char) : Option (Result (List Char)) :=
  let result := if fmt.isEmpty then index_format else fmt
  format_loop fuel file self fields result

end CMessage

/-! ## The References header of a reply (bindings.cc) -/

/-- The block of `reply` that writes the References header (bindings.cc
1664-1693), for the Message-ID value `ref`: the text written after
"References: ", or `none` when the header is not written.  The variables
`start` and `end` are `unsigned int` (32 bits) while positions and `npos` are
`size_t` (64 bits). -/
def reply_references (ref : List Char) : Option (List Char) :=
  if ref.isEmpty then none
  else
    let start : Nat := 0
    let ref1 : List Char :=
      if (find_char ref '(').isSome then
        let found : Nat :=
          match find_char_from ref ')' start with
          | some k => k
          | none => 18446744073709551615
        let end_ : Nat := found % 4294967296
        if end_ ≠ 18446744073709551615 then
          let n := (end_ + 4294967296 - start + 1) % 4294967296
          ref.take start ++ ref.drop (start + n)
        else ref
      else ref
    if ref1.isEmpty then none else some (c_str ref1)

/-! ## The line editor (screen.cc, history.cc) -/

/-- The keys `CScreen::readline` tells apart: what `getch` returns. -/
inductive Key where
  | enter
  | printable (c : Char)
  | left
  | right
  | up
  | down
  | backspace
  | delete
  | other
deriving DecidableEq, Repr

/-- The variables of `CScreen::readline`: the first `len` characters of the
buffer, the cursor `pos`, the length `len`, the history offset `hoff`, and
the offsets passed to `CHistory::at` so far. -/
structure LineState where
  text : List Char
  pos : Int
  len : Int
  hoff : Int
  lookups : List Int
deriving DecidableEq, Repr

/-- The state at the start of `CScreen::readline`; `hist` is the content of
`CHistory`. -/
def readline_init (hist : List (List Char)) : LineState :=
  ⟨[], 0, 0, hist.length, []⟩

/-- The body of the loop of `CScreen::readline` (screen.cc 539-597) for a key
other than Enter. -/
def readline_key (hist : List (List Char)) (buflen : Int) (st : LineState) :
    Key → Result LineState
  | Key.enter => Result.ok st
  | Key.printable c =>
    if st.pos < buflen - 1 then
      Result.ok ⟨st.text.take st.pos.toNat ++ [c] ++ st.text.drop st.pos.toNat,
        st.pos + 1, st.len + 1, st.hoff, st.lookups⟩
    else Result.ok st
  | Key.left =>
    if st.pos > 0 then Result.ok ⟨st.text, st.pos - 1, st.len, st.hoff, st.lookups⟩
    else Result.ok st
  | Key.up =>
    let hoff := st.hoff - 1
    if hoff ≥ 0 then
      match vector_at hist hoff with
      | none => Result.out_of_range
      | some ent =>
        Result.ok ⟨c_str ent, (strlen ent : Nat), (strlen ent : Nat), hoff,
          st.lookups ++ [hoff]⟩
    else Result.ok ⟨st.text, st.pos, st.len, 0, st.lookups⟩
  | Key.down =>
    let hoff := st.hoff + 1
    if hoff < (hist.length : Int) then
      match vector_at hist hoff with
      | none => Result.out_of_range
      | some ent =>
        Result.ok ⟨c_str ent, (strlen ent : Nat), (strlen ent : Nat), hoff,
          st.lookups ++ [hoff]⟩
    else Result.ok ⟨st.text, st.pos, st.len, hist.length, st.lookups⟩
  | Key.right =>
    if st.pos < st.len then Result.ok ⟨st.text, st.pos + 1, st.len, st.hoff, st.lookups⟩
    else Result.ok st
  | Key.backspace =>
    if st.pos > 0 then
      Result.ok ⟨st.text.take (st.pos.toNat - 1) ++ st.text.drop st.pos.toNat,
        st.pos - 1, st.len - 1, st.hoff, st.lookups⟩
    else Result.ok st
  | Key.delete =>
    if st.pos < st.len then
      Result.ok ⟨st.text.take st.pos.toNat ++ st.text.drop (st.pos.toNat + 1),
        st.pos, st.len - 1, st.hoff, st.lookups⟩
    else Result.ok st
  | Key.other => Result.ok st

/-- The loop of `CScreen::readline` over the keys pressed: it ends at Enter,
and the state is the one reached when the keys run out before. -/
def readline_keys (hist : List (List Char)) (buflen : Int) :
    List Key → LineState → Result LineState
  | [], st => Result.ok st
  | Key.enter :: _, st => Result.ok st
  | k :: ks, st =>
    match readline_key hist buflen st k with
    | Result.ok st1 => readline_keys hist buflen ks st1
    | Result.out_of_range => Result.out_of_range
    | Result.null_pointer => Result.null_pointer
    | Result.lua_error => Result.lua_error

/-- The invariant of the line editor: the cursor lies within the text, the
history offset within 0 .. size, and every offset passed to `CHistory::at`
was a valid index. -/
def LineInvariant (hist : List (List Char)) (st : LineState) : Prop :=
  0 ≤ st.pos ∧ st.pos ≤ st.len ∧ 0 ≤ st.hoff ∧ st.hoff ≤ hist.length ∧
    ∀ h ∈ st.lookups, 0 ≤ h ∧ h < hist.length


/-! ## Facts about the string primitives -/

theorem find_eq_none_iff (s needle : List Char) :
    find s needle = none ↔ ¬ needle <:+: s := by
  induction s with
  | nil =>
    cases needle <;> simp [find]
  | cons c cs ih =>
    rw [find, List.infix_cons_iff]
    by_cases h : needle.isPrefixOf (c :: cs) = true
    · simp [h, List.isPrefixOf_iff_prefix.mp h]
    · have h2 : ¬ needle <+: c :: cs := fun hp => h (List.isPrefixOf_iff_prefix.mpr hp)
      simp [h, h2, ih]

theorem find_isSome_iff (s needle : List Char) :
    (find s needle).isSome = true ↔ needle <:+: s := by
  rw [← not_iff_not, ← find_eq_none_iff]
  cases find s needle <;> simp

theorem find_some_split (s needle : List Char) (k : Nat) (hne : needle ≠ [])
    (h : find s needle = some k) :
    s = s.take k ++ needle ++ s.drop (k + needle.length) ∧ ¬ needle <:+: s.take k := by
  induction s generalizing k with
  | nil =>
    cases needle with
    | nil => exact absurd rfl hne
    | cons a as => simp [find] at h
  | cons c cs ih =>
    rw [find] at h
    by_cases hp : needle.isPrefixOf (c :: cs) = true
    · simp only [hp, if_true, Option.some.injEq] at h
      subst h
      obtain ⟨t, ht⟩ := List.isPrefixOf_iff_prefix.mp hp
      refine ⟨?_, ?_⟩
      · simp only [List.take_zero, List.nil_append, Nat.zero_add]
        rw [← ht, List.drop_left]
      · simpa using hne
    · simp only [Bool.not_eq_true] at hp
      simp only [hp] at h
      have hp : ¬ needle.isPrefixOf (c :: cs) = true := by simp [hp]
      cases hf : find cs needle with
      | none => simp [hf] at h
      | some j =>
        simp [hf] at h
        subst h
        obtain ⟨h1, h2⟩ := ih j hf
        refine ⟨?_, ?_⟩
        · simp only [List.take_succ_cons, List.cons_append]
          rw [show j + 1 + needle.length = (j + needle.length) + 1 by omega, List.drop_succ_cons]
          exact congrArg (c :: ·) h1
        · rw [List.take_succ_cons, List.infix_cons_iff]
          rintro (h3 | h3)
          · apply hp
            rw [List.isPrefixOf_iff_prefix]
            exact h3.trans (List.prefix_cons_inj c |>.mpr (List.take_prefix j cs))
          · exact h2 h3

theorem find_marker_append (base rest : List Char) (h : ¬ MARKER <:+: base) :
    find (base ++ MARKER ++ rest) MARKER = some base.length := by
  induction base with
  | nil => simp [find]
  | cons b bs ih =>
    rw [List.infix_cons_iff, not_or] at h
    have hnp : ¬ (MARKER.isPrefixOf (b :: bs ++ MARKER ++ rest) = true) := by
      intro hp
      apply h.1
      match bs, hp with
      | [], hp => simp at hp
      | [y], hp => simp at hp
      | y :: z :: r, hp =>
        simp at hp
        obtain ⟨rfl, rfl, rfl⟩ := hp
        exact ⟨r, rfl⟩
    simp only [List.cons_append] at hnp ⊢
    rw [find]
    simp only [hnp, if_false]
    have := ih h.2
    simp only [List.append_assoc] at this ⊢
    rw [this]
    simp

theorem find_char_isSome_iff (s : List Char) (c : Char) :
    (find_char s c).isSome = true ↔ c ∈ s := by
  induction s with
  | nil => simp [find_char]
  | cons x xs ih =>
    rw [find_char]
    by_cases h : x = c
    · simp [h]
    · have h2 : c ≠ x := fun e => h e.symm
      simp only [h, if_false, Option.isSome_map', ih, List.mem_cons, h2, false_or]

theorem find_char_isNone_iff (s : List Char) (c : Char) :
    (find_char s c).isNone = true ↔ c ∉ s := by
  rw [← find_char_isSome_iff]
  cases find_char s c <;> simp

/-! ## Sorting, deduplication and padding -/

theorem sort_perm (l : List Char) : (sort l).Perm l :=
  List.perm_insertionSort _ l

theorem char_value_injective (a b : Char) (h : char_value a = char_value b) : a = b := by
  have ha : a.toNat < 1114112 := by
    have := a.valid
    unfold UInt32.isValidChar Nat.isValidChar at this
    unfold Char.toNat
    omega
  have hb : b.toNat < 1114112 := by
    have := b.valid
    unfold UInt32.isValidChar Nat.isValidChar at this
    unfold Char.toNat
    omega
  have hn : a.toNat = b.toNat := by
    unfold char_value at h
    split_ifs at h <;> omega
  rw [← Char.ofNat_toNat a, ← Char.ofNat_toNat b, hn]

theorem char_value_of_ascii (c : Char) (h : c.toNat < 128) : char_value c = c.toNat := by
  unfold char_value
  simp only [h, if_true]

theorem sort_sorted (l : List Char) :
    (sort l).Sorted (fun a b => char_value a ≤ char_value b) := by
  haveI : IsTotal Char (fun a b => char_value a ≤ char_value b) :=
    ⟨fun a b => le_total (char_value a) (char_value b)⟩
  haveI : IsTrans Char (fun a b => char_value a ≤ char_value b) :=
    ⟨fun _ _ _ h1 h2 => le_trans h1 h2⟩
  exact List.sorted_insertionSort _ l

theorem mem_sort (c : Char) (l : List Char) : c ∈ sort l ↔ c ∈ l :=
  (sort_perm l).mem_iff

theorem length_sort (l : List Char) : (sort l).length = l.length :=
  (sort_perm l).length_eq

theorem mem_unique (c : Char) : ∀ l : List Char, c ∈ unique l ↔ c ∈ l
  | [] => by simp [unique]
  | [x] => by simp [unique]
  | x :: y :: rest => by
    have ih := mem_unique c (y :: rest)
    rw [unique]
    by_cases h : x = y
    · subst h
      simp only [if_true, ih, List.mem_cons]
      tauto
    · simp only [h, if_false, List.mem_cons] at ih ⊢
      rw [ih]

theorem length_unique_le : ∀ l : List Char, (unique l).length ≤ l.length
  | [] => by simp [unique]
  | [x] => by simp [unique]
  | x :: y :: rest => by
    have ih := length_unique_le (y :: rest)
    rw [unique]
    by_cases h : x = y
    · simp only [h, if_true, List.length_cons] at ih ⊢
      omega
    · simp only [h, if_false, List.length_cons] at ih ⊢
      omega

theorem unique_eq_self : ∀ l : List Char, l.Pairwise (· < ·) → unique l = l
  | [], _ => by simp [unique]
  | [x], _ => by simp [unique]
  | x :: y :: rest, h => by
    have hxy : x ≠ y := by
      have := (List.pairwise_cons.mp h).1 y (by simp)
      exact ne_of_lt this
    rw [unique]
    simp only [hxy, if_false]
    rw [unique_eq_self (y :: rest) (List.pairwise_cons.mp h).2]

theorem unique_strict : ∀ l : List Char,
    l.Sorted (fun a b => char_value a ≤ char_value b) →
      (unique l).Pairwise (fun a b => char_value a < char_value b)
  | [], _ => by simp [unique]
  | [x], _ => by simp [unique]
  | x :: y :: rest, h => by
    have ht : (y :: rest).Sorted (fun a b => char_value a ≤ char_value b) :=
      (List.pairwise_cons.mp h).2
    have ih := unique_strict (y :: rest) ht
    rw [unique]
    by_cases hxy : x = y
    · simp only [hxy, if_true]
      exact ih
    · simp only [hxy, if_false]
      refine List.pairwise_cons.mpr ⟨?_, ih⟩
      intro z hz
      rw [mem_unique] at hz
      have hxy2 : char_value x ≤ char_value y := (List.pairwise_cons.mp h).1 y (by simp)
      have hxy3 : char_value x < char_value y :=
        lt_of_le_of_ne hxy2 (fun e => hxy (char_value_injective x y e))
      rcases List.mem_cons.mp hz with rfl | hz2
      · exact hxy3
      · exact lt_of_lt_of_le hxy3 ((List.pairwise_cons.mp ht).1 z hz2)

/-- The order of `std::sort` at work: the byte 0xC3 is negative as a `char`
and comes before "S". -/
theorem sort_high_byte_first :
    sort ['S', Char.ofNat 195] = [Char.ofNat 195, 'S'] := by decide

theorem strlen_eq_length (s : List Char) (h : NUL ∉ s) : strlen s = s.length := by
  unfold strlen
  rw [List.takeWhile_eq_self_iff.mpr]
  intro x hx
  have : x ≠ NUL := fun e => h (e ▸ hx)
  simpa using this

namespace CMessage

theorem pad_eq (fuel : Nat) (f : List Char) (h : NUL ∉ f) (hfuel : 4 - f.length < fuel) :
    pad fuel f = some (f ++ List.replicate (4 - f.length) ' ') := by
  induction fuel generalizing f with
  | zero => omega
  | succ n ih =>
    rw [pad, strlen_eq_length f h]
    by_cases hl : f.length < 4
    · simp only [hl, if_true]
      have hn : NUL ∉ f ++ [' '] := by
        simp only [List.mem_append, List.mem_singleton, not_or]
        exact ⟨h, by decide⟩
      rw [ih (f ++ [' ']) hn (by simp only [List.length_append, List.length_singleton]; omega)]
      simp only [List.length_append, List.length_singleton, List.append_assoc]
      rw [show 4 - f.length = (4 - (f.length + 1)) + 1 by omega, List.replicate_succ]
      simp
    · simp only [hl, if_false]
      rw [show 4 - f.length = 0 by omega]
      simp

/-- The padding loop never ends on a string that starts with NUL: its
`strlen` stays 0 however many spaces are appended.  This is why the results
on `flags` are stated for C strings. -/
theorem pad_nul_diverges (fuel : Nat) (rest : List Char) : pad fuel (NUL :: rest) = none := by
  induction fuel generalizing rest with
  | zero => rfl
  | succ n ih =>
    rw [pad]
    have : strlen (NUL :: rest) < 4 := by simp [strlen]
    simp only [this, if_true, List.cons_append]
    exact ih _

theorem flags_unfold (fuel : Nat) (p : List Char) :
    flags fuel ⟨p⟩ = if p.isEmpty then some [] else pad fuel (unique (sort (raw_flags p))) := rfl

end CMessage

theorem length_raw_flags_le (p : List Char) : (CMessage.raw_flags p).length ≤ 4 := by
  unfold CMessage.raw_flags
  simp only
  split_ifs with h1 h2 h2
  · simp
  · simp only [List.length_append, List.length_singleton]; omega
  · simp
  · omega

theorem mem_raw_flags (p : List Char) (c : Char) (h : c ∈ CMessage.raw_flags p) :
    c = 'N' ∨ ∃ off, find p MARKER = some off ∧ (p.drop (off + 3)).length ≤ 3 ∧
      c ∈ p.drop (off + 3) := by
  unfold CMessage.raw_flags at h
  cases hf : find p MARKER with
  | none =>
    simp only [hf] at h
    split_ifs at h with h1 h2 h2 <;> simp at h <;> exact Or.inl h
  | some off =>
    simp only [hf] at h
    split_ifs at h with h1 h2 h2
    · simp at h; left; exact h
    · simp only [List.mem_append, List.mem_singleton] at h
      rcases h with h | h
      · right; exact ⟨off, rfl, by omega, h⟩
      · left; exact h
    · simp at h
    · right; exact ⟨off, rfl, by omega, h⟩

/-! ## Occurrences of a segment around the marker -/

theorem prefix_of_append_cons (n a b : List Char) (x : Char) (hx : x ∉ n)
    (h : n <+: a ++ x :: b) : n <+: a := by
  obtain ⟨t, ht⟩ := h
  rcases List.append_eq_append_iff.mp ht with ⟨a1, ha, _⟩ | ⟨c1, hn, hc⟩
  · exact ⟨a1, ha.symm⟩
  · cases c1 with
    | nil => simp at hn; exact hn ▸ List.prefix_refl _
    | cons y ys =>
      simp only [List.cons_append, List.cons.injEq] at hc
      exact absurd (by rw [hn, hc.1]; simp) hx

theorem infix_of_append_cons (n a b : List Char) (x : Char) (hx : x ∉ n)
    (h : n <:+: a ++ x :: b) : n <:+: a ∨ n <:+: b := by
  induction a with
  | nil =>
    rw [List.nil_append, List.infix_cons_iff] at h
    rcases h with h | h
    · left
      exact (prefix_of_append_cons n [] b x hx (by simpa using h)).isInfix
    · right; exact h
  | cons y ys ih =>
    rw [List.cons_append, List.infix_cons_iff] at h
    rcases h with h | h
    · left
      exact (prefix_of_append_cons n (y :: ys) b x hx (by simpa using h)).isInfix
    · rcases ih h with h1 | h1
      · left; exact List.infix_cons_iff.mpr (Or.inr h1)
      · right; exact h1

theorem new_dir_not_infix_marked (base S : List Char) (hb : ¬ NEW_DIR <:+: base)
    (hS : '/' ∉ S ∨ S.length ≤ 3) : ¬ NEW_DIR <:+: base ++ MARKER ++ S := by
  intro h
  have h1 : NEW_DIR <:+: base ++ ':' :: ('2' :: ',' :: S) := by simpa using h
  rcases infix_of_append_cons NEW_DIR base _ ':' (by decide) h1 with h2 | h2
  · exact hb h2
  · rcases hS with hS | hS
    · have : '/' ∈ '2' :: ',' :: S := h2.subset (by simp)
      simp at this
      exact hS this
    · have hlen := h2.length_le
      simp only [List.length_cons] at hlen
      have h3 : '2' :: ',' :: S = NEW_DIR := by
        refine (List.IsInfix.eq_of_length ?_ ?_).symm
        · exact h2
        · simp only [List.length_cons]; omega
      simp at h3

theorem rstrip_append_spaces (F : List Char) (k : Nat) (hF : ∀ c ∈ F, c ≠ ' ') :
    rstrip (F ++ List.replicate k ' ') = F := by
  unfold rstrip
  rw [List.reverse_append, List.reverse_replicate]
  have h1 : ∀ (n : Nat) (l : List Char),
      (List.replicate n ' ' ++ l).dropWhile (· == ' ') = l.dropWhile (· == ' ') := by
    intro n l
    induction n with
    | zero => simp
    | succ m ih => simp [List.replicate_succ, List.dropWhile_cons, ih]
  rw [h1]
  have h2 : F.reverse.dropWhile (· == ' ') = F.reverse := by
    cases hr : F.reverse with
    | nil => simp
    | cons y ys =>
      have hy : y ∈ F := by
        have : y ∈ F.reverse := by rw [hr]; simp
        simpa using this
      have := hF y hy
      simp [List.dropWhile_cons, this]
  rw [h2, List.reverse_reverse]

theorem nul_not_mem_raw_flags (p : List Char) (h : IsCString p) :
    NUL ∉ CMessage.raw_flags p := by
  intro hm
  rcases mem_raw_flags p NUL hm with h1 | ⟨off, _, _, h3⟩
  · exact absurd h1 (by decide)
  · exact h (List.mem_of_mem_drop h3)

namespace CMessage

/-- The flag string of a non-empty path none of whose raw flags is NUL: the
sorted, deduplicated raw flags, padded to four characters. -/
theorem flags_eq (fuel : Nat) (p : List Char) (hp : p ≠ []) (hn : NUL ∉ raw_flags p)
    (hfuel : 5 ≤ fuel) :
    flags fuel ⟨p⟩ = some (unique (sort (raw_flags p)) ++
      List.replicate (4 - (unique (sort (raw_flags p))).length) ' ') := by
  rw [flags_unfold]
  have : p.isEmpty = false := by cases p <;> simp at hp ⊢
  simp only [this, Bool.false_eq_true, if_false]
  apply pad_eq
  · rw [mem_unique, mem_sort]; exact hn
  · omega

theorem raw_flags_marked (base S : List Char) (hb : ¬ MARKER <:+: base)
    (hnew : ¬ NEW_DIR <:+: base ++ MARKER ++ S) (hlen : S.length ≤ 3) :
    raw_flags (base ++ MARKER ++ S) = S := by
  unfold raw_flags
  have h1 := find_marker_append base S hb
  have h2 : find (base ++ MARKER ++ S) NEW_DIR = none := (find_eq_none_iff _ _).mpr hnew
  simp only [h1, h2]
  have h3 : List.drop (base.length + 3) (base ++ MARKER ++ S) = S := by
    rw [List.append_assoc, List.drop_append]
    rfl
  rw [h3]
  simp
  omega

end CMessage

/-! ## Facts used for the flag mutators -/

theorem toUpper_isUpper (c : Char) (h : c.isAlpha = true) : c.toUpper.isUpper = true := by
  simp only [Char.isAlpha, Char.isUpper, Char.isLower, Bool.or_eq_true, Bool.and_eq_true,
    decide_eq_true_eq, ge_iff_le, UInt32.le_def, BitVec.le_def] at h ⊢
  unfold Char.toUpper
  simp only
  have e : c.val.toBitVec.toNat = c.toNat := rfl
  simp only [e] at h
  split_ifs with h1
  · have hvalid : (c.toNat - 32).isValidChar := by
      left; omega
    have hv : (Char.ofNat (c.toNat - 32)).val.toBitVec.toNat = c.toNat - 32 := by
      simp only [Char.ofNat, hvalid, dite_true, Char.ofNatAux, BitVec.toNat_ofNatLt]
    rw [hv]
    simp
    omega
  · simp only [e]
    simp at h ⊢
    omega

theorem find_char_some_split (s : List Char) (c : Char) (j : Nat)
    (h : find_char s c = some j) : ∃ a b, s = a ++ c :: b ∧ a.length = j ∧ c ∉ a := by
  induction s generalizing j with
  | nil => simp [find_char] at h
  | cons x xs ih =>
    rw [find_char] at h
    by_cases hx : x = c
    · simp only [hx, if_true, Option.some.injEq] at h
      exact ⟨[], xs, by simp [hx], by simp [h], by simp⟩
    · simp only [hx, if_false] at h
      cases hf : find_char xs c with
      | none => simp [hf] at h
      | some i =>
        simp [hf] at h
        obtain ⟨a, b, h1, h2, h3⟩ := ih i hf
        refine ⟨x :: a, b, by simp [h1], by simp [h2, h], ?_⟩
        simp only [List.mem_cons, not_or]
        exact ⟨fun e => hx e.symm, h3⟩

theorem filter_ne_eq_self (c : Char) (l : List Char) (h : c ∉ l) :
    l.filter (fun x => x != c) = l := by
  rw [List.filter_eq_self]
  intro a ha
  have : a ≠ c := fun e => h (e ▸ ha)
  simpa using this

namespace CMessage

theorem erase_loop_eq (fuel : Nat) (c : Char) (pre rest : List Char)
    (hfuel : rest.length < fuel) :
    erase_loop fuel c (pre ++ rest) pre.length
      = some (pre ++ rest.filter (fun x => x != c)) := by
  induction fuel generalizing pre rest with
  | zero => omega
  | succ n ih =>
    rw [erase_loop]
    have hfrom : find_char_from (pre ++ rest) c pre.length
        = (find_char rest c).map (· + pre.length) := by
      unfold find_char_from
      rw [List.drop_left]
    rw [hfrom]
    cases hf : find_char rest c with
    | none =>
      have hnot : c ∉ rest := (find_char_isNone_iff rest c).mp (by rw [hf]; rfl)
      simp only [Option.map_none']
      rw [filter_ne_eq_self c rest hnot]
    | some j =>
      obtain ⟨a, b, h1, h2, h3⟩ := find_char_some_split rest c j hf
      subst h1
      simp only [Option.map_some']
      have herase : (pre ++ (a ++ c :: b)).eraseIdx (j + pre.length) = (pre ++ a) ++ b := by
        rw [← List.append_assoc, show j + pre.length = (pre ++ a).length by
          simp only [List.length_append]; omega]
        rw [List.eraseIdx_append_of_length_le (le_refl _)]
        simp
      rw [herase, show j + pre.length = (pre ++ a).length by
        simp only [List.length_append]; omega]
      rw [ih (pre ++ a) b (by simp only [List.length_append, List.length_cons] at hfuel; omega)]
      rw [List.filter_append, filter_ne_eq_self c a h3]
      simp

end CMessage

namespace CMessage

theorem flags_marked (fuel : Nat) (base S : List Char) (hb : ¬ MARKER <:+: base)
    (hnew : ¬ NEW_DIR <:+: base ++ MARKER ++ S) (hlen : S.length ≤ 3) (hn : NUL ∉ S)
    (hfuel : 5 ≤ fuel) :
    flags fuel ⟨base ++ MARKER ++ S⟩
      = some (unique (sort S) ++ List.replicate (4 - (unique (sort S)).length) ' ') := by
  have hraw := raw_flags_marked base S hb hnew hlen
  have := flags_eq fuel (base ++ MARKER ++ S) (by simp) (by rw [hraw]; exact hn) hfuel
  rw [hraw] at this
  exact this

theorem mem_flags_marked (S : List Char) (c : Char) :
    c ∈ unique (sort S) ++ List.replicate (4 - (unique (sort S)).length) ' '
      ↔ c ∈ S ∨ (c = ' ' ∧ (unique (sort S)).length < 4) := by
  rw [List.mem_append, mem_unique, mem_sort, List.mem_replicate]
  constructor
  · rintro (h | ⟨h1, h2⟩)
    · exact Or.inl h
    · exact Or.inr ⟨h2, by omega⟩
  · rintro (h | ⟨h1, h2⟩)
    · exact Or.inl h
    · exact Or.inr ⟨by omega, h1⟩

theorem remove_flag_marked (fuel : Nat) (move : List Char → List Char → Bool)
    (base S : List Char) (c : Char) (hb : ¬ MARKER <:+: base)
    (hnew : ¬ NEW_DIR <:+: base ++ MARKER ++ S) (hlen : S.length ≤ 3) (hn : NUL ∉ S)
    (hmem : c.toUpper ∈ S) (hCm : c.toUpper ∉ MARKER) (hfuel : 7 ≤ fuel) :
    remove_flag fuel move ⟨base ++ MARKER ++ S⟩ c
      = some ⟨⟨base ++ MARKER ++ S.filter (fun x => x != c.toUpper)⟩,
          [⟨base ++ MARKER ++ S, base ++ MARKER ++ S.filter (fun x => x != c.toUpper),
            move (base ++ MARKER ++ S)
              (base ++ MARKER ++ S.filter (fun x => x != c.toUpper))⟩]⟩ := by
  unfold remove_flag
  rw [flags_marked fuel base S hb hnew hlen hn (by omega)]
  have hfound : (find_char (unique (sort S) ++
      List.replicate (4 - (unique (sort S)).length) ' ') c.toUpper).isNone = false := by
    rw [← Bool.not_eq_true, find_char_isNone_iff, not_not, mem_flags_marked]
    exact Or.inl hmem
  have hne : (base ++ MARKER ++ S).isEmpty = false := by simp
  have hfind := find_marker_append base S hb
  have htake : List.take base.length (base ++ MARKER ++ S) = base := by
    rw [List.append_assoc, List.take_left]
  have hdrop : List.drop base.length (base ++ MARKER ++ S) = MARKER ++ S := by
    rw [List.append_assoc, List.drop_left]
  have hloop : erase_loop fuel c.toUpper (MARKER ++ S) 0
      = some (MARKER ++ S.filter (fun x => x != c.toUpper)) := by
    have := erase_loop_eq fuel c.toUpper [] (MARKER ++ S)
      (by simp only [List.length_append, List.length_cons, List.length_nil]; omega)
    simp only [List.nil_append, List.length_nil] at this
    rw [this, List.filter_append, filter_ne_eq_self c.toUpper MARKER hCm]
  simp only [path, set_path, hfound, hne, hfind, htake, hdrop, hloop, Bool.false_eq_true,
    if_false]
  simp only [List.append_assoc]

end CMessage

theorem mem_raw_flags_of_not_new (p : List Char) (c : Char) (hnew : ¬ NEW_DIR <:+: p)
    (h : c ∈ CMessage.raw_flags p) :
    ∃ off, find p MARKER = some off ∧ (p.drop (off + 3)).length ≤ 3 ∧ c ∈ p.drop (off + 3) := by
  unfold CMessage.raw_flags at h
  have h0 : (find p NEW_DIR).isSome = false := by
    rw [← Bool.not_eq_true, find_isSome_iff]; exact hnew
  simp only [h0, Bool.false_eq_true, if_false] at h
  cases hf : find p MARKER with
  | none => simp [hf] at h
  | some off =>
    simp only [hf] at h
    split_ifs at h with h2
    · simp at h
    · exact ⟨off, rfl, by omega, h⟩

namespace CMessage

/-- What `remove_flag` does to a path split at its first marker: the flag is
deleted from the suffix, one rename is requested, and the flag string of the
new path has lost the flag and kept the others. -/
theorem remove_flag_marked_flags (fuel : Nat) (move : List Char → List Char → Bool)
    (base S : List Char) (c : Char) (hup : c.toUpper.isUpper = true)
    (hb : ¬ MARKER <:+: base) (hnew : ¬ NEW_DIR <:+: base ++ MARKER ++ S)
    (hlen : S.length ≤ 3) (hn : NUL ∉ S) (hmem : c.toUpper ∈ S) (hfuel : 7 ≤ fuel) :
    ∃ st f, remove_flag fuel move ⟨base ++ MARKER ++ S⟩ c = some st ∧
      st.msg.m_path = base ++ MARKER ++ S.filter (fun x => x != c.toUpper) ∧
      st.renames = [⟨base ++ MARKER ++ S, base ++ MARKER ++ S.filter (fun x => x != c.toUpper),
        move (base ++ MARKER ++ S) (base ++ MARKER ++ S.filter (fun x => x != c.toUpper))⟩] ∧
      flags fuel st.msg = some f ∧ c.toUpper ∉ f ∧ ∀ d ∈ S, d ≠ c.toUpper → d ∈ f := by
  have hCm : c.toUpper ∉ MARKER := by
    intro h
    simp only [List.mem_cons, List.mem_singleton, List.not_mem_nil, or_false] at h
    rcases h with h | h | h <;> rw [h] at hup <;> exact absurd hup (by decide)
  have hsp : c.toUpper ≠ ' ' := by
    intro h; rw [h] at hup; exact absurd hup (by decide)
  have hbnew : ¬ NEW_DIR <:+: base := by
    intro h
    apply hnew
    rw [List.append_assoc]
    exact h.trans (List.prefix_append base _).isInfix
  have hlen2 : (S.filter (fun x => x != c.toUpper)).length ≤ 3 :=
    le_trans (List.length_filter_le _ _) hlen
  have hn2 : NUL ∉ S.filter (fun x => x != c.toUpper) :=
    fun h => hn (List.mem_of_mem_filter h)
  have hnew2 := new_dir_not_infix_marked base (S.filter (fun x => x != c.toUpper)) hbnew
    (Or.inr hlen2)
  refine ⟨_, _, remove_flag_marked fuel move base S c hb hnew hlen hn hmem hCm hfuel, rfl, rfl,
    flags_marked fuel base _ hb hnew2 hlen2 hn2 (by omega), ?_, ?_⟩
  · rw [mem_flags_marked]
    rintro (h | ⟨h, _⟩)
    · simp [List.mem_filter] at h
    · exact hsp h
  · intro d hd hne
    rw [mem_flags_marked]
    left
    rw [List.mem_filter]
    exact ⟨hd, by simpa using hne⟩

theorem remove_N_not_new (fuel : Nat) (move : List Char → List Char → Bool) (p : List Char)
    (hnew : ¬ NEW_DIR <:+: p) (hc : IsCString p) (hfuel : 7 ≤ fuel) :
    ∃ st, remove_flag fuel move ⟨p⟩ 'N' = some st ∧ is_new fuel st.msg = some false := by
  by_cases hp : p = []
  · subst hp
    exact ⟨⟨⟨[]⟩, []⟩, rfl, rfl⟩
  · have hval := flags_eq fuel p hp (nul_not_mem_raw_flags p hc) (by omega)
    by_cases hN : 'N' ∈ raw_flags p
    · obtain ⟨off, hf, hlen, hmem⟩ := mem_raw_flags_of_not_new p 'N' hnew hN
      obtain ⟨hsplit0, hb⟩ := find_some_split p MARKER off (by decide) hf
      have hsplit : p = p.take off ++ MARKER ++ p.drop (off + 3) := hsplit0
      have hn : NUL ∉ p.drop (off + 3) := fun h => hc (List.mem_of_mem_drop h)
      have hnew2 : ¬ NEW_DIR <:+: p.take off ++ MARKER ++ p.drop (off + 3) := by
        rw [← hsplit]; exact hnew
      obtain ⟨st, f, h1, _, _, h4, h50, _⟩ := remove_flag_marked_flags fuel move (p.take off)
        (p.drop (off + 3)) 'N' (by decide) hb hnew2 hlen hn hmem hfuel
      have h5 : 'N' ∉ f := h50
      rw [← hsplit] at h1
      refine ⟨st, h1, ?_⟩
      unfold is_new
      rw [h4, Option.map_some']
      have : (find_char f 'N').isSome = false := by
        rw [← Bool.not_eq_true, find_char_isSome_iff]; exact h5
      rw [this]
    · have hnot : 'N' ∉ unique (sort (raw_flags p)) ++
          List.replicate (4 - (unique (sort (raw_flags p))).length) ' ' := by
        rw [List.mem_append, mem_unique, mem_sort, List.mem_replicate]
        rintro (h | ⟨_, h⟩)
        · exact hN h
        · exact absurd h (by decide)
      refine ⟨⟨⟨p⟩, []⟩, ?_, ?_⟩
      · unfold remove_flag
        rw [hval]
        have : (find_char (unique (sort (raw_flags p)) ++
            List.replicate (4 - (unique (sort (raw_flags p))).length) ' ')
            (Char.toUpper 'N')).isNone = true := by
          rw [find_char_isNone_iff]; exact hnot
        simp only [this, if_true]
      · unfold is_new
        rw [hval, Option.map_some']
        have : (find_char (unique (sort (raw_flags p)) ++
            List.replicate (4 - (unique (sort (raw_flags p))).length) ' ') 'N').isSome
            = false := by
          rw [← Bool.not_eq_true, find_char_isSome_iff]; exact hnot
        rw [this]

end CMessage

/-! ## Flag decoding (C1 to C5) -/

/-- C1 (as amended): for every base path containing neither ":2," nor "/new/"
and every valid flag set F of at most three flags, `flags` on
base ++ ":2," ++ F returns F padded with spaces, hence exactly F once the
trailing padding is removed. -/
theorem flags_roundtrip (base F : List Char) (fuel : Nat)
    (hb : ¬ MARKER <:+: base) (hnew : ¬ NEW_DIR <:+: base) (hF : ValidFlags F)
    (hlen : F.length ≤ 3) (hfuel : 5 ≤ fuel) :
    CMessage.flags fuel ⟨base ++ MARKER ++ F⟩ = some (F ++ List.replicate (4 - F.length) ' ') ∧
    (CMessage.flags fuel ⟨base ++ MARKER ++ F⟩).map rstrip = some F := by
  have hslash : '/' ∉ F := fun h => absurd (hF.2 _ h) (by decide)
  have hnew2 := new_dir_not_infix_marked base F hnew (Or.inl hslash)
  have hraw := CMessage.raw_flags_marked base F hb hnew2 hlen
  have hnul : NUL ∉ CMessage.raw_flags (base ++ MARKER ++ F) := by
    rw [hraw]; exact fun h => absurd (hF.2 _ h) (by decide)
  have hascii : ∀ c ∈ F, c.toNat < 128 := by
    intro c hc
    have hu := hF.2 c hc
    simp only [Char.isUpper, Bool.and_eq_true, decide_eq_true_eq, ge_iff_le, UInt32.le_def,
      BitVec.le_def] at hu
    have e : c.val.toBitVec.toNat = c.toNat := rfl
    simp only [e] at hu
    simp at hu
    omega
  have hsorted : F.Sorted (fun a b => char_value a ≤ char_value b) := by
    refine List.Pairwise.imp_of_mem ?_ hF.1
    intro a b ha hb hab
    rw [char_value_of_ascii a (hascii a ha), char_value_of_ascii b (hascii b hb)]
    have : a.toNat < b.toNat := hab
    omega
  have hsort : sort F = F := List.Sorted.insertionSort_eq hsorted
  have hval := CMessage.flags_eq fuel (base ++ MARKER ++ F) (by simp) hnul hfuel
  rw [hraw, hsort, unique_eq_self F hF.1] at hval
  refine ⟨hval, ?_⟩
  rw [hval, Option.map_some', rstrip_append_spaces]
  intro c hc e
  exact absurd (hF.2 c hc) (by rw [e]; decide)

/-- Witness for C1: the base "Maildir/cur/1234.host" with the flags "FRS". -/
theorem flags_roundtrip_witness :
    CMessage.flags 5 ⟨"Maildir/cur/1234.host".toList ++ MARKER ++ "FRS".toList⟩
        = some ("FRS".toList ++ List.replicate (4 - "FRS".toList.length) ' ') ∧
    (CMessage.flags 5 ⟨"Maildir/cur/1234.host".toList ++ MARKER ++ "FRS".toList⟩).map rstrip
        = some "FRS".toList :=
  flags_roundtrip "Maildir/cur/1234.host".toList "FRS".toList 5
    ((find_eq_none_iff _ _).mp (by decide)) ((find_eq_none_iff _ _).mp (by decide))
    ⟨by decide, by decide⟩ (by decide) (by decide)

/-- C1 (counterexample): the valid four-flag set "DFRS" is not returned: on
"Maildir/cur/1234.host:2,DFRS" the decoder drops the suffix, whatever the
fuel. -/
theorem flags_roundtrip_fails_four_flags :
    ¬ MARKER <:+: "Maildir/cur/1234.host".toList ∧
    ¬ NEW_DIR <:+: "Maildir/cur/1234.host".toList ∧
    ValidFlags "DFRS".toList ∧
    CMessage.flags 5 ⟨"Maildir/cur/1234.host".toList ++ MARKER ++ "DFRS".toList⟩
        = some "    ".toList ∧
    ∀ fuel, (CMessage.flags fuel
        ⟨"Maildir/cur/1234.host".toList ++ MARKER ++ "DFRS".toList⟩).map rstrip
        ≠ some "DFRS".toList := by
  refine ⟨(find_eq_none_iff _ _).mp (by decide), (find_eq_none_iff _ _).mp (by decide),
    ⟨by decide, by decide⟩, by decide, ?_⟩
  intro fuel
  rcases Nat.lt_or_ge fuel 5 with h | h
  · interval_cases fuel <;> decide
  · have hraw : CMessage.raw_flags
        ("Maildir/cur/1234.host".toList ++ MARKER ++ "DFRS".toList) = [] := by decide
    rw [CMessage.flags_eq fuel _ (by decide) (by rw [hraw]; decide) h, hraw]
    decide

theorem text_after_eq_find (needle s : List Char) :
    text_after needle s = (find s needle).map (fun off => s.drop (off + needle.length)) := by
  induction s with
  | nil => cases needle <;> simp [text_after, find]
  | cons c cs ih =>
    rw [text_after, find]
    by_cases h : needle <+: c :: cs
    · have h2 : needle.isPrefixOf (c :: cs) = true := List.isPrefixOf_iff_prefix.mpr h
      simp [h, h2]
    · have h2 : needle.isPrefixOf (c :: cs) = false := by
        rw [← Bool.not_eq_true, List.isPrefixOf_iff_prefix]; exact h
      simp only [h, h2, if_false, Bool.false_eq_true, ih]
      cases find cs needle with
      | none => rfl
      | some j =>
        simp only [Option.map_some']
        rw [show j + 1 + needle.length = (j + needle.length) + 1 by omega, List.drop_succ_cons]

theorem unique_sort_eq_dedup_mergeSort (l : List Char) :
    unique (sort l)
      = (l.mergeSort (fun a b => decide (char_value a ≤ char_value b))).dedup := by
  haveI : IsAntisymm Char (fun a b => char_value a ≤ char_value b) :=
    ⟨fun a b h1 h2 => char_value_injective a b (le_antisymm h1 h2)⟩
  have hA := unique_strict (sort l) (sort_sorted l)
  have hA1 : (unique (sort l)).Sorted (fun a b => char_value a ≤ char_value b) :=
    hA.imp (fun h => le_of_lt h)
  have hA2 : (unique (sort l)).Nodup := hA.imp (fun h e => by rw [e] at h; exact lt_irrefl _ h)
  have hM : (l.mergeSort (fun a b => decide (char_value a ≤ char_value b))).Pairwise
      (fun a b => char_value a ≤ char_value b) := by
    have := @List.sorted_mergeSort Char
      (fun a b : Char => decide (char_value a ≤ char_value b))
      (by intro a b c h1 h2; simp only [decide_eq_true_eq] at *; exact le_trans h1 h2)
      (by intro a b; simp only [Bool.or_eq_true, decide_eq_true_eq]; exact le_total _ _) l
    exact this.imp (fun h => by simpa using h)
  have hB1 : ((l.mergeSort (fun a b => decide (char_value a ≤ char_value b))).dedup).Sorted
      (fun a b => char_value a ≤ char_value b) :=
    hM.sublist (List.dedup_sublist _)
  have hB2 : ((l.mergeSort (fun a b => decide (char_value a ≤ char_value b))).dedup).Nodup :=
    List.nodup_dedup _
  have hperm : (unique (sort l)).Perm
      ((l.mergeSort (fun a b => decide (char_value a ≤ char_value b))).dedup) := by
    rw [List.perm_ext_iff_of_nodup hA2 hB2]
    intro c
    rw [mem_unique, mem_sort, List.mem_dedup, (List.mergeSort_perm l _).mem_iff]
  exact List.eq_of_perm_of_sorted hperm hA1 hB1

theorem raw_flags_eq_reference (p : List Char) :
    CMessage.raw_flags p =
      (if NEW_DIR <:+: p
        then (if ((text_after MARKER p).getD []).length > 3 then []
              else (text_after MARKER p).getD []) ++ ['N']
        else (if ((text_after MARKER p).getD []).length > 3 then []
              else (text_after MARKER p).getD [])) := by
  unfold CMessage.raw_flags
  rw [text_after_eq_find]
  have hnew : ((find p NEW_DIR).isSome = true) ↔ NEW_DIR <:+: p := find_isSome_iff p NEW_DIR
  cases hf : find p MARKER <;> by_cases hn : NEW_DIR <:+: p <;>
    simp [hn, hnew.mpr, hnew]

/-- C2: for every non-empty path (a C string, with enough fuel for the
padding loop), `flags` returns the reference flag string
(the text after the first ":2,", dropped when longer than three characters,
plus "N" for a path through "/new/", sorted ascending in the order of `char`,
without duplicates, padded on the right with spaces), and that string has
exactly four characters. -/
theorem flags_refines_reference (p : List Char) (fuel : Nat) (hp : p ≠ [])
    (hc : IsCString p) (hfuel : 5 ≤ fuel) :
    CMessage.flags fuel ⟨p⟩ = some (flags_reference p) ∧ (flags_reference p).length = 4 := by
  have hval := CMessage.flags_eq fuel p hp (nul_not_mem_raw_flags p hc) hfuel
  have hlen : (unique (sort (CMessage.raw_flags p))).length ≤ 4 :=
    le_trans (length_unique_le _) (by rw [length_sort]; exact length_raw_flags_le p)
  have href : flags_reference p = unique (sort (CMessage.raw_flags p)) ++
      List.replicate (4 - (unique (sort (CMessage.raw_flags p))).length) ' ' := by
    rw [unique_sort_eq_dedup_mergeSort, raw_flags_eq_reference]
    unfold flags_reference
    rfl
  refine ⟨by rw [hval, href], ?_⟩
  rw [href, List.length_append, List.length_replicate]
  omega

/-- Witness for C2: the path "Maildir/new/1234.host:2,S" followed by the byte
0xC3, whose flag string starts with that byte. -/
theorem flags_refines_reference_witness :
    CMessage.flags 5 ⟨"Maildir/new/1234.host:2,S".toList ++ [Char.ofNat 195]⟩
        = some (flags_reference ("Maildir/new/1234.host:2,S".toList ++ [Char.ofNat 195])) ∧
    (flags_reference ("Maildir/new/1234.host:2,S".toList ++ [Char.ofNat 195])).length = 4 :=
  flags_refines_reference ("Maildir/new/1234.host:2,S".toList ++ [Char.ofNat 195]) 5
    (by decide) (by decide) (by decide)

/-- The order of `char` in the flag string: on the suffix "S" followed by the
byte 0xC3 (a path with a non-ASCII byte), `flags` puts the byte 0xC3, negative
as a `char`, before "S". -/
theorem flags_high_byte_first (fuel : Nat) :
    CMessage.flags (fuel + 5) ⟨"Maildir/cur/1234.host:2,S".toList ++ [Char.ofNat 195]⟩
      = some [Char.ofNat 195, 'S', ' ', ' '] :=
  rfl

theorem mem_raw_flags_of_new (p : List Char) (h : NEW_DIR <:+: p) :
    'N' ∈ CMessage.raw_flags p := by
  unfold CMessage.raw_flags
  simp [(find_isSome_iff p NEW_DIR).mpr h]

theorem mem_raw_flags_of_suffix (p : List Char) (off : Nat) (c : Char)
    (hf : find p MARKER = some off) (hlen : (p.drop (off + 3)).length ≤ 3)
    (hc : c ∈ p.drop (off + 3)) : c ∈ CMessage.raw_flags p := by
  unfold CMessage.raw_flags
  have : ¬ (p.drop (off + 3)).length > 3 := by omega
  simp only [hf, this, if_false]
  split_ifs
  · exact List.mem_append_left _ hc
  · exact hc

theorem raw_flags_of_long_suffix (p : List Char) (off : Nat)
    (hf : find p MARKER = some off) (hlen : 3 < (p.drop (off + 3)).length) :
    CMessage.raw_flags p = if NEW_DIR <:+: p then ['N'] else [] := by
  unfold CMessage.raw_flags
  have hnew : ((find p NEW_DIR).isSome = true) ↔ NEW_DIR <:+: p := find_isSome_iff p NEW_DIR
  simp only [hf, gt_iff_lt, hlen, if_true, hnew, List.nil_append]

theorem ne_nil_of_find_some (p needle : List Char) (off : Nat) (hne : needle ≠ [])
    (hf : find p needle = some off) : p ≠ [] := by
  rintro rfl
  cases needle with
  | nil => exact hne rfl
  | cons a as => simp [find] at hf

/-- C3: for every path (a C string) through "/new/", `flags` returns a string
that contains "N" and `is_new` answers true, whatever follows the marker
":2,". -/
theorem new_location_implies_N (p : List Char) (fuel : Nat) (hnew : NEW_DIR <:+: p)
    (hc : IsCString p) (hfuel : 5 ≤ fuel) :
    (∃ f, CMessage.flags fuel ⟨p⟩ = some f ∧ 'N' ∈ f) ∧
    CMessage.is_new fuel ⟨p⟩ = some true := by
  have hp : p ≠ [] := by
    rintro rfl
    have := hnew.length_le
    simp at this
  have hval := CMessage.flags_eq fuel p hp (nul_not_mem_raw_flags p hc) hfuel
  have hN : 'N' ∈ unique (sort (CMessage.raw_flags p)) ++
      List.replicate (4 - (unique (sort (CMessage.raw_flags p))).length) ' ' := by
    apply List.mem_append_left
    rw [mem_unique, mem_sort]
    exact mem_raw_flags_of_new p hnew
  refine ⟨⟨_, hval, hN⟩, ?_⟩
  unfold CMessage.is_new
  rw [hval, Option.map_some', (find_char_isSome_iff _ _).mpr hN]

/-- Witness for C3: a path in new/ whose suffix is too long to be read. -/
theorem new_location_implies_N_witness :
    (∃ f, CMessage.flags 5 ⟨"Maildir/new/1234.host:2,DFRS".toList⟩ = some f ∧ 'N' ∈ f) ∧
    CMessage.is_new 5 ⟨"Maildir/new/1234.host:2,DFRS".toList⟩ = some true :=
  new_location_implies_N "Maildir/new/1234.host:2,DFRS".toList 5
    ((find_isSome_iff _ _).mp (by decide)) (by decide) (by decide)

/-- C4: when the text after the first ":2," has more than three characters,
`flags` ignores it (four spaces, or "N" and three spaces for a path through
"/new/"); a text of exactly three characters is kept: each of its characters
is in the flag string. -/
theorem flags_long_suffix_ignored (p : List Char) (off fuel : Nat)
    (hf : find p MARKER = some off) (hfuel : 5 ≤ fuel) :
    (3 < (p.drop (off + 3)).length →
      CMessage.flags fuel ⟨p⟩ =
        some (if NEW_DIR <:+: p then ['N', ' ', ' ', ' '] else [' ', ' ', ' ', ' '])) ∧
    ((p.drop (off + 3)).length = 3 → IsCString p →
      ∃ f, CMessage.flags fuel ⟨p⟩ = some f ∧ ∀ c ∈ p.drop (off + 3), c ∈ f) := by
  have hp : p ≠ [] := ne_nil_of_find_some p MARKER off (by decide) hf
  constructor
  · intro hlen
    have hraw := raw_flags_of_long_suffix p off hf hlen
    have hn : NUL ∉ CMessage.raw_flags p := by
      rw [hraw]; split_ifs <;> decide
    rw [CMessage.flags_eq fuel p hp hn hfuel, hraw]
    split_ifs <;> rfl
  · intro hlen hc
    refine ⟨_, CMessage.flags_eq fuel p hp (nul_not_mem_raw_flags p hc) hfuel, ?_⟩
    intro c hmem
    apply List.mem_append_left
    rw [mem_unique, mem_sort]
    exact mem_raw_flags_of_suffix p off c hf (by omega) hmem

/-- Witness for C4: a suffix of four characters in cur/ and one of three. -/
theorem flags_long_suffix_ignored_witness :
    CMessage.flags 5 ⟨"Maildir/cur/1234.host:2,DFRS".toList⟩
      = some (if NEW_DIR <:+: "Maildir/cur/1234.host:2,DFRS".toList
          then ['N', ' ', ' ', ' '] else [' ', ' ', ' ', ' ']) ∧
    ∃ f, CMessage.flags 5 ⟨"Maildir/cur/1234.host:2,FRS".toList⟩ = some f ∧
      ∀ c ∈ "Maildir/cur/1234.host:2,FRS".toList.drop (21 + 3), c ∈ f :=
  ⟨(flags_long_suffix_ignored "Maildir/cur/1234.host:2,DFRS".toList 21 5
      (by decide) (by decide)).1 (by decide),
   (flags_long_suffix_ignored "Maildir/cur/1234.host:2,FRS".toList 21 5
      (by decide) (by decide)).2 (by decide) (by decide)⟩

/-- C5 (as amended): for every path (a C string), every character of the
flag string is a space, "N", or a character of the text after the first
":2,", copied unchanged; hence every non-space character is upper-case
whenever that text is upper-case. -/
theorem flags_chars_from_suffix (p : List Char) (fuel : Nat) (hc : IsCString p)
    (hfuel : 5 ≤ fuel) :
    ∃ f, CMessage.flags fuel ⟨p⟩ = some f ∧
      (∀ c ∈ f, c = ' ' ∨ c = 'N' ∨
        ∃ off, find p MARKER = some off ∧ c ∈ p.drop (off + 3)) ∧
      ((∀ off, find p MARKER = some off → ∀ c ∈ p.drop (off + 3), c.isUpper = true) →
        ∀ c ∈ f, c ≠ ' ' → c.isUpper = true) := by
  by_cases hp : p = []
  · subst hp
    exact ⟨[], by rw [CMessage.flags_unfold]; rfl, by simp, by simp⟩
  · have hval := CMessage.flags_eq fuel p hp (nul_not_mem_raw_flags p hc) hfuel
    have hsrc : ∀ c ∈ unique (sort (CMessage.raw_flags p)) ++
        List.replicate (4 - (unique (sort (CMessage.raw_flags p))).length) ' ',
        c = ' ' ∨ c = 'N' ∨ ∃ off, find p MARKER = some off ∧ c ∈ p.drop (off + 3) := by
      intro c hmem
      rcases List.mem_append.mp hmem with h | h
      · rw [mem_unique, mem_sort] at h
        rcases mem_raw_flags p c h with h1 | ⟨off, h1, _, h2⟩
        · exact Or.inr (Or.inl h1)
        · exact Or.inr (Or.inr ⟨off, h1, h2⟩)
      · exact Or.inl (List.eq_of_mem_replicate h)
    refine ⟨_, hval, hsrc, ?_⟩
    intro hup c hmem hns
    rcases hsrc c hmem with h | h | ⟨off, h1, h2⟩
    · exact absurd h hns
    · rw [h]; decide
    · exact hup off h1 c h2

/-- Witness for C5: the path "Maildir/cur/1234.host:2,s". -/
theorem flags_chars_from_suffix_witness :
    ∃ f, CMessage.flags 5 ⟨"Maildir/cur/1234.host:2,s".toList⟩ = some f ∧
      (∀ c ∈ f, c = ' ' ∨ c = 'N' ∨
        ∃ off, find "Maildir/cur/1234.host:2,s".toList MARKER = some off ∧
          c ∈ "Maildir/cur/1234.host:2,s".toList.drop (off + 3)) ∧
      ((∀ off, find "Maildir/cur/1234.host:2,s".toList MARKER = some off →
          ∀ c ∈ "Maildir/cur/1234.host:2,s".toList.drop (off + 3), c.isUpper = true) →
        ∀ c ∈ f, c ≠ ' ' → c.isUpper = true) :=
  flags_chars_from_suffix "Maildir/cur/1234.host:2,s".toList 5 (by decide) (by decide)

/-- C5 (counterexample): on "Maildir/cur/1234.host:2,s" the flag string is
"s" and three spaces; its first character is neither a space nor
upper-case. -/
theorem flags_keeps_lower_case :
    CMessage.flags 5 ⟨"Maildir/cur/1234.host:2,s".toList⟩ = some ['s', ' ', ' ', ' '] ∧
    ¬ (∀ c ∈ ['s', ' ', ' ', ' '], c ≠ ' ' → c.isUpper = true) := by
  refine ⟨by decide, ?_⟩
  intro h
  exact absurd (h 's' (by simp) (by decide)) (by decide)

/-! ## Flag mutation (C6 to C10) -/

/-- C6 (evaluation at the failing input): `add_flag` with the flag R on
"Maildir/cur/1234.host:2,S", whose flag string "S" lacks R, requests no
rename and leaves the path as it was, whatever `CFile::move` would answer;
the path does not become "Maildir/cur/1234.host:2,RS". -/
theorem add_flag_absent_flag_does_nothing (fuel : Nat)
    (move : List Char → List Char → Bool) :
    CMessage.flags (fuel + 5) ⟨"Maildir/cur/1234.host:2,S".toList⟩ = some "S   ".toList ∧
    CMessage.add_flag (fuel + 5) move ⟨"Maildir/cur/1234.host:2,S".toList⟩ 'R'
      = some ⟨⟨"Maildir/cur/1234.host:2,S".toList⟩, []⟩ ∧
    "Maildir/cur/1234.host:2,S".toList ≠ "Maildir/cur/1234.host:2,RS".toList :=
  ⟨rfl, rfl, by decide⟩

/-- C7 (evaluation at the failing inputs): `add_flag` with a flag that is
already in the flag string does request a rename and does change the path:
with S on "Maildir/cur/1234.host:2,S" the path becomes
"Maildir/cur/1234.host:2,SS", and with N on "Maildir/new/1234.host", new by
location only, the path becomes "Maildir/new/1234.host:2,NN". -/
theorem add_flag_present_flag_renames (fuel : Nat) (move : List Char → List Char → Bool) :
    (CMessage.flags (fuel + 5) ⟨"Maildir/cur/1234.host:2,S".toList⟩ = some "S   ".toList ∧
     CMessage.add_flag (fuel + 5) move ⟨"Maildir/cur/1234.host:2,S".toList⟩ 's'
      = some ⟨⟨"Maildir/cur/1234.host:2,SS".toList⟩,
          [⟨"Maildir/cur/1234.host:2,S".toList, "Maildir/cur/1234.host:2,SS".toList,
            move "Maildir/cur/1234.host:2,S".toList "Maildir/cur/1234.host:2,SS".toList⟩]⟩) ∧
    (CMessage.flags (fuel + 5) ⟨"Maildir/new/1234.host".toList⟩ = some "N   ".toList ∧
     CMessage.add_flag (fuel + 5) move ⟨"Maildir/new/1234.host".toList⟩ 'N'
      = some ⟨⟨"Maildir/new/1234.host:2,NN".toList⟩,
          [⟨"Maildir/new/1234.host".toList, "Maildir/new/1234.host:2,NN".toList,
            move "Maildir/new/1234.host".toList "Maildir/new/1234.host:2,NN".toList⟩]⟩) :=
  ⟨⟨rfl, rfl⟩, ⟨rfl, rfl⟩⟩

/-- C8 (evaluation at the failing input): two successive calls of `add_flag`
with the flag R on "Maildir/cur/1234.host:2,S", whose flag string lacks R,
request no rename at all, and R is still missing from the flag string
afterwards. -/
theorem add_flag_twice_renames_nothing (fuel : Nat) (move : List Char → List Char → Bool) :
    ∃ s1 s2 : Step,
      CMessage.add_flag (fuel + 5) move ⟨"Maildir/cur/1234.host:2,S".toList⟩ 'R' = some s1 ∧
      CMessage.add_flag (fuel + 5) move s1.msg 'R' = some s2 ∧
      (s1.renames ++ s2.renames).length = 0 ∧
      s2.msg.m_path = "Maildir/cur/1234.host:2,S".toList ∧
      CMessage.flags (fuel + 5) s2.msg = some "S   ".toList :=
  ⟨⟨⟨"Maildir/cur/1234.host:2,S".toList⟩, []⟩, ⟨⟨"Maildir/cur/1234.host:2,S".toList⟩, []⟩,
    rfl, rfl, rfl, rfl, rfl⟩

/-- C9 (as amended): with a `CFile::move` that succeeds, for a path
base ++ ":2," ++ S outside "/new/" (base the text before the first ":2,"),
with S of at most three characters containing the upper-case form of the
letter c, `remove_flag` c requests the one rename to, and sets the path to,
base ++ ":2," ++ S without that flag; the flag string afterwards lacks the
flag and keeps every other character of S.  And `mark_read` on any path
outside "/new/" returns true and leaves `is_new` false. -/
theorem remove_flag_deletes_flag (fuel : Nat) (rename move : List Char → List Char → Bool)
    (hmove : ∀ src dst : List Char, move src dst = true) (hfuel : 7 ≤ fuel) :
    (∀ (base S : List Char) (c : Char), c.isAlpha = true → ¬ MARKER <:+: base →
      ¬ NEW_DIR <:+: base ++ MARKER ++ S → S.length ≤ 3 → IsCString S → c.toUpper ∈ S →
      ∃ st f, CMessage.remove_flag fuel move ⟨base ++ MARKER ++ S⟩ c = some st ∧
        st.msg.m_path = base ++ MARKER ++ S.filter (fun x => x != c.toUpper) ∧
        st.renames = [⟨base ++ MARKER ++ S,
          base ++ MARKER ++ S.filter (fun x => x != c.toUpper), true⟩] ∧
        CMessage.flags fuel st.msg = some f ∧ c.toUpper ∉ f ∧
        ∀ d ∈ S, d ≠ c.toUpper → d ∈ f) ∧
    (∀ p : List Char, ¬ NEW_DIR <:+: p → IsCString p →
      ∃ st, CMessage.mark_read fuel rename move ⟨p⟩ = some (true, st) ∧
        CMessage.is_new fuel st.msg = some false) := by
  constructor
  · intro base S c hc hb hnew hlen hn hmem
    obtain ⟨st, f, h1, h2, h3, h4⟩ :=
      CMessage.remove_flag_marked_flags fuel move base S c (toUpper_isUpper c hc) hb hnew
        hlen hn hmem hfuel
    rw [hmove] at h3
    exact ⟨st, f, h1, h2, h3, h4⟩
  · intro p hnew hc
    obtain ⟨st, h1, h2⟩ := CMessage.remove_N_not_new fuel move p hnew hc hfuel
    refine ⟨st, ?_, h2⟩
    unfold CMessage.mark_read
    have hnone : find p NEW_DIR = none := (find_eq_none_iff _ _).mpr hnew
    simp only [CMessage.path, hnone, h1]

/-- Witness for C9: the flag s removed from "Maildir/cur/1234.host:2,RS", and
`mark_read` on "Maildir/cur/1234.host:2,NS", with renames that succeed. -/
theorem remove_flag_deletes_flag_witness :
    (∃ st f, CMessage.remove_flag 7 (fun _ _ => true)
        ⟨"Maildir/cur/1234.host".toList ++ MARKER ++ "RS".toList⟩ 's' = some st ∧
      st.msg.m_path = "Maildir/cur/1234.host".toList ++ MARKER ++
        "RS".toList.filter (fun x => x != 's'.toUpper) ∧
      st.renames = [⟨"Maildir/cur/1234.host".toList ++ MARKER ++ "RS".toList,
        "Maildir/cur/1234.host".toList ++ MARKER ++
          "RS".toList.filter (fun x => x != 's'.toUpper), true⟩] ∧
      CMessage.flags 7 st.msg = some f ∧ 's'.toUpper ∉ f ∧
      ∀ d ∈ "RS".toList, d ≠ 's'.toUpper → d ∈ f) ∧
    (∃ st, CMessage.mark_read 7 (fun _ _ => true) (fun _ _ => true)
        ⟨"Maildir/cur/1234.host:2,NS".toList⟩ = some (true, st) ∧
      CMessage.is_new 7 st.msg = some false) :=
  ⟨(remove_flag_deletes_flag 7 (fun _ _ => true) (fun _ _ => true) (fun _ _ => rfl)
        (by decide)).1
      "Maildir/cur/1234.host".toList "RS".toList 's' (by decide)
      ((find_eq_none_iff _ _).mp (by decide)) ((find_eq_none_iff _ _).mp (by decide))
      (by decide) (by decide) (by decide),
   (remove_flag_deletes_flag 7 (fun _ _ => true) (fun _ _ => true) (fun _ _ => rfl)
        (by decide)).2
      "Maildir/cur/1234.host:2,NS".toList ((find_eq_none_iff _ _).mp (by decide)) (by decide)⟩

/-- C9 (counterexample): the path "Maildir/cur/1234.host:2,s" is
base ++ ":2," ++ S with base "Maildir/cur/1234.host", the text before its
only marker, and S = "s", which contains the letter s.  With a `CFile::move`
that succeeds, `remove_flag` s (and likewise `remove_flag` S) looks for the
upper-case S in the flag string "s   ", finds none, requests no rename and
leaves the path as it was: the letter s is not deleted and the flag string
still holds it. -/
theorem remove_flag_lower_case_untouched :
    ¬ MARKER <:+: "Maildir/cur/1234.host".toList ∧
    ¬ NEW_DIR <:+: "Maildir/cur/1234.host".toList ++ MARKER ++ "s".toList ∧
    "s".toList.length ≤ 3 ∧ 's' ∈ "s".toList ∧
    CMessage.remove_flag 7 (fun _ _ => true)
        ⟨"Maildir/cur/1234.host".toList ++ MARKER ++ "s".toList⟩ 's'
      = some ⟨⟨"Maildir/cur/1234.host".toList ++ MARKER ++ "s".toList⟩, []⟩ ∧
    CMessage.remove_flag 7 (fun _ _ => true)
        ⟨"Maildir/cur/1234.host".toList ++ MARKER ++ "s".toList⟩ 'S'
      = some ⟨⟨"Maildir/cur/1234.host".toList ++ MARKER ++ "s".toList⟩, []⟩ ∧
    "Maildir/cur/1234.host".toList ++ MARKER ++ "s".toList
      ≠ "Maildir/cur/1234.host".toList ++ MARKER ++ "s".toList.filter (fun x => x != 's') ∧
    CMessage.flags 7 ⟨"Maildir/cur/1234.host".toList ++ MARKER ++ "s".toList⟩
      = some "s   ".toList :=
  ⟨(find_eq_none_iff _ _).mp (by decide), (find_eq_none_iff _ _).mp (by decide), by decide,
    by decide, by decide, by decide, by decide, by decide⟩

/-- C10 (evaluation at the failing inputs): with a `CFile::move` that fails,
`remove_flag` S on "Maildir/cur/1234.host:2,S" still sets the path to
"Maildir/cur/1234.host:2,", and `add_flag` S sets it to
"Maildir/cur/1234.host:2,SS": the path in memory differs from the path
before the call although the file was not renamed. -/
theorem flag_mutation_ignores_failed_move (fuel : Nat) :
    CMessage.remove_flag (fuel + 5) (fun _ _ => false) ⟨"Maildir/cur/1234.host:2,S".toList⟩ 'S'
      = some ⟨⟨"Maildir/cur/1234.host:2,".toList⟩,
          [⟨"Maildir/cur/1234.host:2,S".toList, "Maildir/cur/1234.host:2,".toList, false⟩]⟩ ∧
    CMessage.add_flag (fuel + 5) (fun _ _ => false) ⟨"Maildir/cur/1234.host:2,S".toList⟩ 'S'
      = some ⟨⟨"Maildir/cur/1234.host:2,SS".toList⟩,
          [⟨"Maildir/cur/1234.host:2,S".toList, "Maildir/cur/1234.host:2,SS".toList, false⟩]⟩ ∧
    "Maildir/cur/1234.host:2,".toList ≠ "Maildir/cur/1234.host:2,S".toList ∧
    "Maildir/cur/1234.host:2,SS".toList ≠ "Maildir/cur/1234.host:2,S".toList :=
  ⟨rfl, rfl, by decide, by decide⟩

/-! ## Marking read and new (C11 to C13) -/

theorem find_some_no_earlier (s needle : List Char) (k : Nat) (hne : needle ≠ [])
    (h : find s needle = some k) : ¬ needle <:+: s.take (k + needle.length - 1) := by
  have hpos : 0 < needle.length := List.length_pos.mpr hne
  induction s generalizing k with
  | nil =>
    cases needle with
    | nil => exact absurd rfl hne
    | cons a as => simp [find] at h
  | cons c cs ih =>
    rw [find] at h
    by_cases hp : needle.isPrefixOf (c :: cs) = true
    · simp only [hp, if_true, Option.some.injEq] at h
      subst h
      intro hin
      have := hin.length_le
      rw [List.length_take] at this
      omega
    · simp only [Bool.not_eq_true] at hp
      simp only [hp] at h
      have hp2 : ¬ needle <+: c :: cs := by
        rw [← List.isPrefixOf_iff_prefix]; simp [hp]
      cases hf : find cs needle with
      | none => simp [hf] at h
      | some j =>
        simp [hf] at h
        subst h
        rw [show j + 1 + needle.length - 1 = (j + needle.length - 1) + 1 by omega,
          List.take_succ_cons, List.infix_cons_iff]
        rintro (h3 | h3)
        · exact hp2 (h3.trans ((List.prefix_cons_inj c).mpr (List.take_prefix _ cs)))
        · exact ih j hf h3

namespace CMessage

theorem mark_read_new_branch (fuel : Nat) (rename move : List Char → List Char → Bool)
    (before after : List Char)
    (hfirst : find (before ++ NEW_DIR ++ after) NEW_DIR = some before.length) :
    mark_read fuel rename move ⟨before ++ NEW_DIR ++ after⟩ =
      if rename (before ++ NEW_DIR ++ after) (before ++ CUR_DIR ++ after) = true then
        some (true, ⟨⟨before ++ CUR_DIR ++ after⟩,
          [⟨before ++ NEW_DIR ++ after, before ++ CUR_DIR ++ after, true⟩]⟩)
      else
        some (false, ⟨⟨before ++ NEW_DIR ++ after⟩,
          [⟨before ++ NEW_DIR ++ after, before ++ CUR_DIR ++ after, false⟩]⟩) := by
  have htake : List.take before.length (before ++ NEW_DIR ++ after) = before := by
    rw [List.append_assoc, List.take_left]
  have hdrop : List.drop (before.length + 5) (before ++ NEW_DIR ++ after) = after := by
    rw [List.append_assoc, List.drop_append]
    rfl
  unfold mark_read
  simp only [path, set_path, hfirst, htake, hdrop]

end CMessage

/-- C11: for a path before ++ "/new/" ++ after split at its first "/new/",
`mark_read` requests the rename to before ++ "/cur/" ++ after; when the
rename succeeds it returns true and that is the new path, and when the rename
fails it returns false and the path is unchanged. -/
theorem mark_read_moves_new_to_cur (fuel : Nat) (rename move : List Char → List Char → Bool)
    (before after : List Char)
    (hfirst : find (before ++ NEW_DIR ++ after) NEW_DIR = some before.length) :
    (rename (before ++ NEW_DIR ++ after) (before ++ CUR_DIR ++ after) = true →
      CMessage.mark_read fuel rename move ⟨before ++ NEW_DIR ++ after⟩ =
        some (true, ⟨⟨before ++ CUR_DIR ++ after⟩,
          [⟨before ++ NEW_DIR ++ after, before ++ CUR_DIR ++ after, true⟩]⟩)) ∧
    (rename (before ++ NEW_DIR ++ after) (before ++ CUR_DIR ++ after) = false →
      CMessage.mark_read fuel rename move ⟨before ++ NEW_DIR ++ after⟩ =
        some (false, ⟨⟨before ++ NEW_DIR ++ after⟩,
          [⟨before ++ NEW_DIR ++ after, before ++ CUR_DIR ++ after, false⟩]⟩)) := by
  constructor
  · intro h
    rw [CMessage.mark_read_new_branch fuel rename move before after hfirst, if_pos h]
  · intro h
    rw [CMessage.mark_read_new_branch fuel rename move before after hfirst,
      if_neg (by rw [h]; exact Bool.false_ne_true)]

/-- Witness for C11: "Maildir/new/1234.host:2,S", with a rename that succeeds
and with one that fails. -/
theorem mark_read_moves_new_to_cur_witness :
    CMessage.mark_read 0 (fun _ _ => true) (fun _ _ => true)
        ⟨"Maildir".toList ++ NEW_DIR ++ "1234.host:2,S".toList⟩ =
      some (true, ⟨⟨"Maildir".toList ++ CUR_DIR ++ "1234.host:2,S".toList⟩,
        [⟨"Maildir".toList ++ NEW_DIR ++ "1234.host:2,S".toList,
          "Maildir".toList ++ CUR_DIR ++ "1234.host:2,S".toList, true⟩]⟩) ∧
    CMessage.mark_read 0 (fun _ _ => false) (fun _ _ => true)
        ⟨"Maildir".toList ++ NEW_DIR ++ "1234.host:2,S".toList⟩ =
      some (false, ⟨⟨"Maildir".toList ++ NEW_DIR ++ "1234.host:2,S".toList⟩,
        [⟨"Maildir".toList ++ NEW_DIR ++ "1234.host:2,S".toList,
          "Maildir".toList ++ CUR_DIR ++ "1234.host:2,S".toList, false⟩]⟩) :=
  ⟨(mark_read_moves_new_to_cur 0 (fun _ _ => true) (fun _ _ => true) "Maildir".toList
      "1234.host:2,S".toList (by decide)).1 rfl,
   (mark_read_moves_new_to_cur 0 (fun _ _ => false) (fun _ _ => true) "Maildir".toList
      "1234.host:2,S".toList (by decide)).2 rfl⟩

theorem new_dir_not_infix_cur (dir name : List Char)
    (hfirst : find (dir ++ NEW_DIR ++ name) NEW_DIR = some dir.length)
    (hname : '/' ∉ name) : ¬ NEW_DIR <:+: dir ++ CUR_DIR ++ name := by
  have h0 := find_some_no_earlier _ NEW_DIR dir.length (by decide) hfirst
  have hpre : ¬ NEW_DIR <:+: dir ++ ['/'] := by
    intro h
    apply h0
    have htake : List.take (dir.length + NEW_DIR.length - 1) (dir ++ NEW_DIR ++ name)
        = dir ++ ['/', 'n', 'e', 'w'] := by
      rw [show dir.length + NEW_DIR.length - 1 = dir.length + 4 by rfl, List.append_assoc,
        List.take_append]
      rfl
    rw [htake]
    exact h.trans ⟨[], ['n', 'e', 'w'], by simp⟩
  intro h
  have h1 : NEW_DIR <:+: (dir ++ ['/']) ++ 'c' :: ('u' :: 'r' :: '/' :: name) := by
    simpa using h
  rcases infix_of_append_cons NEW_DIR _ _ 'c' (by decide) h1 with h2 | h2
  · exact hpre h2
  · rcases infix_of_append_cons NEW_DIR [] _ 'u' (by decide) h2 with h3 | h3
    · simpa using h3.length_le
    · rcases infix_of_append_cons NEW_DIR [] _ 'r' (by decide) h3 with h4 | h4
      · simpa using h4.length_le
      · rcases List.infix_cons_iff.mp h4 with h5 | h5
        · obtain ⟨t, ht⟩ := h5
          simp only [List.cons_append, List.cons.injEq, true_and] at ht
          apply hname
          rw [← ht]
          simp
        · exact hname (h5.subset (by simp))

theorem marker_not_infix_cur (dir name : List Char)
    (h : ¬ MARKER <:+: dir ++ NEW_DIR ++ name) : ¬ MARKER <:+: dir ++ CUR_DIR ++ name := by
  have hd : ¬ MARKER <:+: dir := by
    intro hd
    apply h
    rw [List.append_assoc]
    exact hd.trans (List.prefix_append dir _).isInfix
  have hn : ¬ MARKER <:+: name := fun hn => h (hn.trans (List.suffix_append _ name).isInfix)
  intro h1
  have h2 : MARKER <:+: dir ++ '/' :: (['c', 'u', 'r'] ++ '/' :: name) := by simpa using h1
  rcases infix_of_append_cons MARKER _ _ '/' (by decide) h2 with h3 | h3
  · exact hd h3
  · rcases infix_of_append_cons MARKER _ _ '/' (by decide) h3 with h4 | h4
    · exact absurd ((find_isSome_iff _ _).mpr h4) (by decide)
    · exact hn h4

/-- C12 (as amended): for a message under new/ whose path holds no ":2,", a
successful `mark_read` leaves the path equal to the cur/ sibling with the
file name unchanged (nothing is appended), and `is_new` then returns
false. -/
theorem mark_read_keeps_file_name (fuel : Nat) (rename move : List Char → List Char → Bool)
    (dir name : List Char)
    (hfirst : find (dir ++ NEW_DIR ++ name) NEW_DIR = some dir.length)
    (hname : '/' ∉ name) (hmark : ¬ MARKER <:+: dir ++ NEW_DIR ++ name)
    (hren : rename (dir ++ NEW_DIR ++ name) (dir ++ CUR_DIR ++ name) = true)
    (hfuel : 5 ≤ fuel) :
    CMessage.mark_read fuel rename move ⟨dir ++ NEW_DIR ++ name⟩ =
      some (true, ⟨⟨dir ++ CUR_DIR ++ name⟩,
        [⟨dir ++ NEW_DIR ++ name, dir ++ CUR_DIR ++ name, true⟩]⟩) ∧
    CMessage.flags fuel ⟨dir ++ CUR_DIR ++ name⟩ = some [' ', ' ', ' ', ' '] ∧
    CMessage.is_new fuel ⟨dir ++ CUR_DIR ++ name⟩ = some false := by
  have hnew := new_dir_not_infix_cur dir name hfirst hname
  have hm := marker_not_infix_cur dir name hmark
  have hraw : CMessage.raw_flags (dir ++ CUR_DIR ++ name) = [] := by
    unfold CMessage.raw_flags
    simp only [(find_eq_none_iff _ _).mpr hm, (find_eq_none_iff _ _).mpr hnew]
    rfl
  have hfl : CMessage.flags fuel ⟨dir ++ CUR_DIR ++ name⟩ = some [' ', ' ', ' ', ' '] := by
    rw [CMessage.flags_eq fuel _ (by simp) (by rw [hraw]; simp) hfuel, hraw]
    rfl
  refine ⟨?_, hfl, ?_⟩
  · rw [CMessage.mark_read_new_branch fuel rename move dir name hfirst, if_pos hren]
  · unfold CMessage.is_new
    rw [hfl]
    rfl

/-- Witness for C12: "Maildir/new/1234.host" becomes "Maildir/cur/1234.host". -/
theorem mark_read_keeps_file_name_witness :
    CMessage.mark_read 5 (fun _ _ => true) (fun _ _ => true)
        ⟨"Maildir".toList ++ NEW_DIR ++ "1234.host".toList⟩ =
      some (true, ⟨⟨"Maildir".toList ++ CUR_DIR ++ "1234.host".toList⟩,
        [⟨"Maildir".toList ++ NEW_DIR ++ "1234.host".toList,
          "Maildir".toList ++ CUR_DIR ++ "1234.host".toList, true⟩]⟩) ∧
    CMessage.flags 5 ⟨"Maildir".toList ++ CUR_DIR ++ "1234.host".toList⟩
      = some [' ', ' ', ' ', ' '] ∧
    CMessage.is_new 5 ⟨"Maildir".toList ++ CUR_DIR ++ "1234.host".toList⟩ = some false :=
  mark_read_keeps_file_name 5 (fun _ _ => true) (fun _ _ => true) "Maildir".toList
    "1234.host".toList (by decide) (by decide) ((find_eq_none_iff _ _).mp (by decide)) rfl
    (by decide)

/-- C12 (counterexample): a successful `mark_read` on "Maildir/new/1234.host"
sets the path to "Maildir/cur/1234.host", which is not
"Maildir/cur/1234.host:2,". -/
theorem mark_read_appends_no_marker :
    CMessage.mark_read 5 (fun _ _ => true) (fun _ _ => true) ⟨"Maildir/new/1234.host".toList⟩
      = some (true, ⟨⟨"Maildir/cur/1234.host".toList⟩,
          [⟨"Maildir/new/1234.host".toList, "Maildir/cur/1234.host".toList, true⟩]⟩) ∧
    "Maildir/cur/1234.host".toList ≠ "Maildir/cur/1234.host:2,".toList :=
  ⟨by decide, by decide⟩

/-- C13 (evaluation at the failing input): on "Maildir/tmp/1234.host:2,S", a
path without "/cur/" whose flags lack N, `mark_new` returns true but requests
no rename and leaves the path as it was; the message is not new afterwards. -/
theorem mark_new_outside_cur_adds_nothing (fuel : Nat)
    (rename move : List Char → List Char → Bool) :
    find "Maildir/tmp/1234.host:2,S".toList CUR_DIR = none ∧
    CMessage.flags (fuel + 5) ⟨"Maildir/tmp/1234.host:2,S".toList⟩ = some "S   ".toList ∧
    CMessage.mark_new (fuel + 5) rename move ⟨"Maildir/tmp/1234.host:2,S".toList⟩
      = some (true, ⟨⟨"Maildir/tmp/1234.host:2,S".toList⟩, []⟩) ∧
    CMessage.is_new (fuel + 5) ⟨"Maildir/tmp/1234.host:2,S".toList⟩ = some false :=
  ⟨rfl, rfl, rfl, rfl⟩

/-! ## Filtering (C14) -/

theorem c_str_eq_self (s : List Char) (h : IsCString s) : c_str s = s := by
  unfold c_str
  rw [List.takeWhile_eq_self_iff]
  intro x hx
  have : x ≠ NUL := fun e => h (e ▸ hx)
  simpa using this

theorem strstr_iff_occurs (hay needle : List Char) (hh : IsCString hay)
    (hn : IsCString needle) : strstr hay needle = true ↔ needle <:+: hay := by
  unfold strstr
  rw [c_str_eq_self hay hh, c_str_eq_self needle hn, find_isSome_iff]

namespace CMessage

theorem flags_returns (fuel : Nat) (p : List Char) (hc : IsCString p) (hfuel : 5 ≤ fuel) :
    ∃ f, flags fuel ⟨p⟩ = some f := by
  by_cases hp : p = []
  · subst hp
    exact ⟨[], rfl⟩
  · exact ⟨_, flags_eq fuel p hp (nul_not_mem_raw_flags p hc) hfuel⟩

theorem is_new_returns (fuel : Nat) (p : List Char) (hc : IsCString p) (hfuel : 5 ≤ fuel) :
    ∃ b, is_new fuel ⟨p⟩ = some b := by
  obtain ⟨f, hf⟩ := flags_returns fuel p hc hfuel
  exact ⟨_, by unfold is_new; rw [hf]; rfl⟩

end CMessage

/-- C14: `matches_filter` returns true for the filter "all"; for the filter
"new" it returns what `is_new` returns (and does return, for a path that is a
C string); for every other filter f it returns true exactly when f occurs in
the formatted string of the message (filter and formatted string being C
strings). -/
theorem matches_filter_three_way (fuel : Nat) (format : CMessage → List Char)
    (self : CMessage) :
    CMessage.matches_filter fuel format self ['a', 'l', 'l'] = some true ∧
    CMessage.matches_filter fuel format self ['n', 'e', 'w'] = self.is_new fuel ∧
    (IsCString self.m_path → 5 ≤ fuel →
      ∃ b, self.is_new fuel = some b ∧
        CMessage.matches_filter fuel format self ['n', 'e', 'w'] = some b) ∧
    (∀ f : List Char, IsCString f → IsCString (format self) →
      f ≠ ['a', 'l', 'l'] → f ≠ ['n', 'e', 'w'] →
      ∃ b, CMessage.matches_filter fuel format self f = some b ∧
        (b = true ↔ f <:+: format self)) := by
  have hnew : CMessage.matches_filter fuel format self ['n', 'e', 'w'] = self.is_new fuel := by
    unfold CMessage.matches_filter
    have h1 : c_str ['n', 'e', 'w'] ≠ ['a', 'l', 'l'] := by decide
    have h2 : c_str ['n', 'e', 'w'] = ['n', 'e', 'w'] := by decide
    simp only [h1, h2, if_true, if_false]
    cases self.is_new fuel with
    | none => rfl
    | some b => cases b <;> rfl
  refine ⟨rfl, hnew, ?_, ?_⟩
  · intro hc hfuel
    obtain ⟨b, hb⟩ := CMessage.is_new_returns fuel self.m_path hc hfuel
    exact ⟨b, hb, by rw [hnew]; exact hb⟩
  · intro f hf hfmt hall hnw
    unfold CMessage.matches_filter
    rw [c_str_eq_self f hf]
    simp only [hall, hnw, if_false]
    by_cases hs : strstr (format self) f = true
    · refine ⟨true, by simp [hs], ?_⟩
      simp only [true_iff]
      exact (strstr_iff_occurs _ _ hfmt hf).mp hs
    · refine ⟨false, by simp [hs], ?_⟩
      simp only [Bool.false_eq_true, false_iff]
      exact fun h => hs ((strstr_iff_occurs _ _ hfmt hf).mpr h)

/-- Witness for C14: a message in new/ whose formatted line is "N Bob Hi",
with the filters "all", "new" and "Bob". -/
theorem matches_filter_three_way_witness :
    (∃ b, CMessage.is_new 5 ⟨"Maildir/new/1234.host".toList⟩ = some b ∧
      CMessage.matches_filter 5 (fun _ => "N Bob Hi".toList)
        ⟨"Maildir/new/1234.host".toList⟩ ['n', 'e', 'w'] = some b) ∧
    (∃ b, CMessage.matches_filter 5 (fun _ => "N Bob Hi".toList)
        ⟨"Maildir/new/1234.host".toList⟩ "Bob".toList = some b ∧
      (b = true ↔ "Bob".toList <:+: "N Bob Hi".toList)) :=
  ⟨(matches_filter_three_way 5 (fun _ => "N Bob Hi".toList)
      ⟨"Maildir/new/1234.host".toList⟩).2.2.1 (by decide) (by decide),
   (matches_filter_three_way 5 (fun _ => "N Bob Hi".toList)
      ⟨"Maildir/new/1234.host".toList⟩).2.2.2 "Bob".toList (by decide) (by decide)
      (by decide) (by decide)⟩

/-! ## The wrap-around search (C15 to C17) -/

theorem vector_at_some {α : Type} (v : List α) (i : Int) (x : α)
    (h : vector_at v i = some x) : 0 ≤ i ∧ i < v.length := by
  unfold vector_at at h
  split_ifs at h with h1
  have h2 : i.toNat < v.length := by
    have := List.getElem?_eq_some.mp h
    exact this.1
  omega

theorem vector_at_of_lt {α : Type} (v : List α) (i : Int) (h0 : 0 ≤ i)
    (h1 : i < v.length) : ∃ x, vector_at v i = some x ∧ x ∈ v := by
  unfold vector_at
  have h2 : i.toNat < v.length := by omega
  refine ⟨v[i.toNat], ?_, List.getElem_mem _⟩
  simp only [not_lt.mpr h0, if_false]
  exact List.getElem?_eq_getElem h2

theorem search_loop_found_in_range (items : List (List Char)) (str : List Char)
    (max selected : Int) (fuel : Nat) :
    ∀ (i : Int) (ex : List Int) (j : Int) (ex2 : List Int),
      search_loop items str max selected fuel i ex = some (SearchEnd.finished (some j) ex2) →
      0 ≤ j ∧ j < items.length := by
  induction fuel with
  | zero =>
    intro i ex j ex2 h
    simp [search_loop] at h
  | succ n ih =>
    intro i ex j ex2 h
    rw [search_loop] at h
    by_cases h1 : i = selected
    · simp [h1] at h
    · by_cases h2 : i ≥ max
      · simp [h1, h2] at h
      · simp only [h1, h2, if_false] at h
        cases hv : vector_at items i with
        | none => rw [hv] at h; simp at h
        | some cur =>
          rw [hv] at h
          simp only at h
          by_cases h3 : strstr cur str = true
          · simp only [h3, if_true, Option.some.injEq, SearchEnd.finished.injEq] at h
            rw [← h.1]
            exact vector_at_some items i cur hv
          · simp only [h3, if_false] at h
            exact ih _ _ _ _ h

/-- Started with the cursor at -1 on a non-empty list without a match, the
search loop never ends: its index runs through 0, ..., max-1 again and again
and never meets -1. -/
theorem search_loop_minus_one_diverges (items : List (List Char)) (str : List Char)
    (hno : ∀ item ∈ items, strstr item str = false) (fuel : Nat) :
    ∀ (i : Int) (ex : List Int), 0 ≤ i → i < items.length →
      search_loop items str items.length (-1) fuel i ex = none := by
  induction fuel with
  | zero => intro i ex _ _; rfl
  | succ n ih =>
    intro i ex h0 h1
    obtain ⟨cur, hcur, hmem⟩ := vector_at_of_lt items i h0 h1
    rw [search_loop]
    have e1 : ¬ i = -1 := by omega
    have e2 : ¬ i ≥ (items.length : Int) := by omega
    simp only [e1, e2, if_false, hcur, hno cur hmem, Bool.false_eq_true]
    split_ifs with h3
    · exact ih 0 _ (le_refl 0) (by omega)
    · exact ih (i + 1) _ (by omega) (by omega)

/-- C15 (evaluation at the failing input): started on the last index, the
search loop stops at once, whatever the list and the pattern, so nothing is
examined and nothing selected; with the folders "Mail/inbox", "Mail/lists",
"Mail/sent" (or messages so formatted), the cursor on 2 and the pattern
"inbox", index 0 matches but the selection stays 2. -/
theorem search_from_last_index_selects_nothing (fuel : Nat) (items : List (List Char))
    (str : List Char) :
    search_loop items str items.length ((items.length : Int) - 1) (fuel + 1)
      ((items.length : Int) - 1 + 1) [] = some (SearchEnd.finished none []) ∧
    strstr "Mail/inbox".toList "inbox".toList = true ∧
    scroll_maildir_to (fuel + 1) "inbox".toList
      ⟨["Mail/inbox".toList, "Mail/lists".toList, "Mail/sent".toList], [], none, 2, 0, 0⟩
      = some (Result.ok
          ⟨["Mail/inbox".toList, "Mail/lists".toList, "Mail/sent".toList], [], none, 2, 0, 0⟩) ∧
    scroll_index_to (fuel + 1) (fun m => m.m_path) "inbox".toList
      ⟨[], [], some [⟨"Mail/inbox".toList⟩, ⟨"Mail/lists".toList⟩, ⟨"Mail/sent".toList⟩],
        0, 2, 0⟩
      = some (Result.ok
          ⟨[], [], some [⟨"Mail/inbox".toList⟩, ⟨"Mail/lists".toList⟩, ⟨"Mail/sent".toList⟩],
            0, 2, 0⟩) := by
  refine ⟨?_, by decide, rfl, rfl⟩
  rw [search_loop]
  have e1 : ¬ ((items.length : Int) - 1 + 1 = (items.length : Int) - 1) := by omega
  have e2 : (items.length : Int) - 1 + 1 ≥ (items.length : Int) := by omega
  simp only [e1, e2, if_true, if_false]

/-- C16 (evaluation at the failing input): on three items none of which
matches, started on the last index 2, the search loop examines no position
at all (not the two other positions); started on index 0 it examines 1 and
2. -/
theorem search_from_last_index_examines_nothing (fuel : Nat) :
    (∀ item ∈ ["a".toList, "b".toList, "c".toList], strstr item "z".toList = false) ∧
    search_loop ["a".toList, "b".toList, "c".toList] "z".toList 3 2 (fuel + 1) (2 + 1) []
      = some (SearchEnd.finished none []) ∧
    search_loop ["a".toList, "b".toList, "c".toList] "z".toList 3 0 (fuel + 3) (0 + 1) []
      = some (SearchEnd.finished none [1, 2]) ∧
    scroll_maildir_to (fuel + 1) "z".toList
      ⟨["a".toList, "b".toList, "c".toList], [], none, 2, 0, 0⟩
      = some (Result.ok ⟨["a".toList, "b".toList, "c".toList], [], none, 2, 0, 0⟩) :=
  ⟨by decide, rfl, rfl, rfl⟩

/-- C17 (evaluation at the failing input): the cursor value -1 is stored by
`jump_index_to` and `jump_maildir_to` with the argument -1, and by
`drawMessage` on an empty message list; with the cursor at -1 and one item
that does not match the pattern, neither search returns, whatever the
fuel. -/
theorem search_from_minus_one_never_returns (fuel : Nat) :
    (jump_index_to (-1) ⟨[], [], some [⟨"a".toList⟩], 0, 0, 0⟩).selected_message = -1 ∧
    (jump_maildir_to (-1) ⟨["a".toList], [], none, 0, 0, 0⟩).selected_folder = -1 ∧
    drawMessage ⟨[], [], some [], 0, 0, 0⟩ = Result.ok ⟨[], [], some [], 0, -1, 0⟩ ∧
    scroll_index_to fuel (fun m => m.m_path) "z".toList ⟨[], [], some [⟨"a".toList⟩], 0, -1, 0⟩
      = none ∧
    scroll_maildir_to fuel "z".toList ⟨["a".toList], [], none, -1, 0, 0⟩ = none := by
  have hno : ∀ item ∈ ["a".toList], strstr item "z".toList = false := by decide
  have h := search_loop_minus_one_diverges ["a".toList] "z".toList hno fuel 0 []
    (le_refl 0) (by decide)
  refine ⟨rfl, rfl, rfl, ?_, ?_⟩
  · unfold scroll_index_to
    have : search_loop (List.map (fun m => m.m_path) [(⟨"a".toList⟩ : CMessage)]) "z".toList
        (([(⟨"a".toList⟩ : CMessage)].length : Nat) : Int) (-1) fuel (-1 + 1) [] = none := h
    simp only [this]
  · unfold scroll_maildir_to
    have : search_loop ["a".toList] "z".toList ((["a".toList].length : Nat) : Int) (-1) fuel
        (-1 + 1) [] = none := h
    simp only [this]

/-! ## Cursor bounds and the scroll offset (C18 to C20) -/

/-- C18 (as amended): `scroll_index_up` and `scroll_maildir_up` never leave a
negative cursor; a search that returns either leaves the cursor where it was
or puts it on an index i with 0 <= i < count; and the bounding done while
drawing a non-empty list brings a cursor that is not negative into
0 <= index < count. -/
theorem cursor_bounds_by_design (g : CGlobal) (step : Int) (fuel : Nat) (str : List Char)
    (format : CMessage → List Char) :
    0 ≤ (scroll_index_up step g).selected_message ∧
    0 ≤ (scroll_maildir_up step g).selected_folder ∧
    (∀ g2, scroll_maildir_to fuel str g = some (Result.ok g2) →
      g2.selected_folder = g.selected_folder ∨
        (0 ≤ g2.selected_folder ∧ g2.selected_folder < g.folders.length)) ∧
    (∀ g2 msgs, g.messages = some msgs →
      scroll_index_to fuel format str g = some (Result.ok g2) →
      g2.selected_message = g.selected_message ∨
        (0 ≤ g2.selected_message ∧ g2.selected_message < msgs.length)) ∧
    (1 ≤ g.folders.length → 0 ≤ g.selected_folder →
      0 ≤ (drawMaildir g).selected_folder ∧
        (drawMaildir g).selected_folder < g.folders.length) ∧
    (∀ msgs, g.messages = some msgs → 1 ≤ msgs.length → 0 ≤ g.selected_message →
      0 ≤ (drawIndex g).selected_message ∧ (drawIndex g).selected_message < msgs.length) ∧
    (∀ msgs, g.messages = some msgs → 1 ≤ msgs.length → 0 ≤ g.selected_message →
      ∃ g2, drawMessage g = Result.ok g2 ∧
        0 ≤ g2.selected_message ∧ g2.selected_message < msgs.length) := by
  refine ⟨?_, ?_, ?_, ?_, ?_, ?_, ?_⟩
  · unfold scroll_index_up
    simp only [CGlobal.set_message_offset, CGlobal.set_selected_message]
    split_ifs <;> omega
  · unfold scroll_maildir_up
    simp only [CGlobal.set_selected_folder]
    split_ifs <;> omega
  · intro g2 h
    unfold scroll_maildir_to at h
    simp only at h
    cases hs : search_loop g.folders str g.folders.length g.selected_folder fuel
        (g.selected_folder + 1) [] with
    | none => rw [hs] at h; simp at h
    | some e =>
      rw [hs] at h
      cases e with
      | out_of_range i => simp at h
      | finished found ex =>
        cases found with
        | none =>
          simp only [Option.some.injEq, Result.ok.injEq] at h
          left; rw [← h]
        | some j =>
          simp only [Option.some.injEq, Result.ok.injEq] at h
          right
          rw [← h]
          exact search_loop_found_in_range _ _ _ _ _ _ _ _ _ hs
  · intro g2 msgs hm h
    unfold scroll_index_to at h
    rw [hm] at h
    simp only at h
    cases hs : search_loop (msgs.map format) str msgs.length g.selected_message fuel
        (g.selected_message + 1) [] with
    | none => rw [hs] at h; simp at h
    | some e =>
      rw [hs] at h
      cases e with
      | out_of_range i => simp at h
      | finished found ex =>
        cases found with
        | none =>
          simp only [Option.some.injEq, Result.ok.injEq] at h
          left; rw [← h]; rfl
        | some j =>
          simp only [Option.some.injEq, Result.ok.injEq] at h
          right
          rw [← h]
          have := search_loop_found_in_range _ _ _ _ _ _ _ _ _ hs
          rw [List.length_map] at this
          exact this
  · intro h1 h0
    unfold drawMaildir
    simp only [CGlobal.set_selected_folder]
    split_ifs <;> (try dsimp only) <;> omega
  · intro msgs hm h1 h0
    unfold drawIndex
    rw [hm]
    simp only [CGlobal.set_selected_message]
    split_ifs <;> (try dsimp only) <;> omega
  · intro msgs hm h1 h0
    unfold drawMessage
    rw [hm]
    simp only [CGlobal.set_selected_message]
    by_cases hge : g.selected_message ≥ (msgs.length : Int)
    · simp only [hge, if_true]
      have hc : (msgs.length : Int) - 1 < msgs.length ∧ (msgs.length : Int) > 0 := by omega
      obtain ⟨x, hx, _⟩ := vector_at_of_lt msgs ((msgs.length : Int) - 1) (by omega) (by omega)
      simp only [hc, and_self, if_true, hx]
      exact ⟨_, rfl, by simp only; omega, by simp only; omega⟩
    · simp only [hge, if_false]
      have hc : g.selected_message < msgs.length ∧ (msgs.length : Int) > 0 := by omega
      obtain ⟨x, hx, _⟩ := vector_at_of_lt msgs g.selected_message h0 (by omega)
      simp only [hc, and_self, if_true, hx]
      exact ⟨_, rfl, h0, by omega⟩

/-- Witness for C18: three folders and two messages, both cursors on 5. -/
theorem cursor_bounds_by_design_witness :
    (0 ≤ (drawMaildir ⟨["a".toList, "b".toList, "c".toList], [],
        some [⟨"m1".toList⟩, ⟨"m2".toList⟩], 5, 5, 0⟩).selected_folder ∧
      (drawMaildir ⟨["a".toList, "b".toList, "c".toList], [],
        some [⟨"m1".toList⟩, ⟨"m2".toList⟩], 5, 5, 0⟩).selected_folder
        < (["a".toList, "b".toList, "c".toList].length : Nat)) ∧
    (0 ≤ (drawIndex ⟨["a".toList, "b".toList, "c".toList], [],
        some [⟨"m1".toList⟩, ⟨"m2".toList⟩], 5, 5, 0⟩).selected_message ∧
      (drawIndex ⟨["a".toList, "b".toList, "c".toList], [],
        some [⟨"m1".toList⟩, ⟨"m2".toList⟩], 5, 5, 0⟩).selected_message
        < ([(⟨"m1".toList⟩ : CMessage), ⟨"m2".toList⟩].length : Nat)) :=
  ⟨(cursor_bounds_by_design ⟨["a".toList, "b".toList, "c".toList], [],
        some [⟨"m1".toList⟩, ⟨"m2".toList⟩], 5, 5, 0⟩ 1 0 [] (fun m => m.m_path)).2.2.2.2.1
      (by decide) (by decide),
   (cursor_bounds_by_design ⟨["a".toList, "b".toList, "c".toList], [],
        some [⟨"m1".toList⟩, ⟨"m2".toList⟩], 5, 5, 0⟩ 1 0 [] (fun m => m.m_path)).2.2.2.2.2.1
      [⟨"m1".toList⟩, ⟨"m2".toList⟩] rfl (by decide) (by decide)⟩

/-- C18 (counterexample): with three messages and the cursor on 0,
`scroll_index_down` by 5 stores the cursor 5, which is not below the count 3;
`jump_maildir_to` with -1 stores a negative folder cursor. -/
theorem scroll_index_down_leaves_range :
    (scroll_index_down 5
      ⟨[], [], some [⟨"m1".toList⟩, ⟨"m2".toList⟩, ⟨"m3".toList⟩], 0, 0, 0⟩).selected_message
      = 5 ∧
    (scroll_index_down 5
      ⟨[], [], some [⟨"m1".toList⟩, ⟨"m2".toList⟩, ⟨"m3".toList⟩], 0, 0, 0⟩).messages
      = some [⟨"m1".toList⟩, ⟨"m2".toList⟩, ⟨"m3".toList⟩] ∧
    ¬ ((5 : Int) < ([(⟨"m1".toList⟩ : CMessage), ⟨"m2".toList⟩, ⟨"m3".toList⟩].length : Nat)) ∧
    (jump_maildir_to (-1) ⟨["a".toList], [], none, 0, 0, 0⟩).selected_folder = -1 :=
  ⟨rfl, rfl, by decide, rfl⟩

/-- C19 (evaluation at the failing inputs): with two messages, the cursor on
5 and the scroll offset 7, the bounding in `drawMessage` and in `drawIndex`
moves the cursor to 1 and leaves the offset 7; `clear_selected_folders` and
`add_selected_folder` put the cursor from 1 to 0 and leave the offset 7;
`scroll_index_down` on the same state does reset the offset. -/
theorem selection_change_keeps_offset :
    drawMessage ⟨[], [], some [⟨"m1".toList⟩, ⟨"m2".toList⟩], 0, 5, 7⟩
      = Result.ok ⟨[], [], some [⟨"m1".toList⟩, ⟨"m2".toList⟩], 0, 1, 7⟩ ∧
    drawIndex ⟨[], [], some [⟨"m1".toList⟩, ⟨"m2".toList⟩], 0, 5, 7⟩
      = ⟨[], [], some [⟨"m1".toList⟩, ⟨"m2".toList⟩], 0, 1, 7⟩ ∧
    clear_selected_folders []
        ⟨[], ["inbox".toList], some [⟨"m1".toList⟩, ⟨"m2".toList⟩], 0, 1, 7⟩
      = ⟨[], [], some [], 0, 0, 7⟩ ∧
    add_selected_folder [⟨"m3".toList⟩] (some "lists".toList)
        ⟨[], ["inbox".toList], some [⟨"m1".toList⟩, ⟨"m2".toList⟩], 0, 1, 7⟩
      = Result.ok ⟨[], ["inbox".toList, "lists".toList], some [⟨"m3".toList⟩], 0, 0, 7⟩ ∧
    scroll_index_down 1 ⟨[], [], some [⟨"m1".toList⟩, ⟨"m2".toList⟩], 0, 0, 7⟩
      = ⟨[], [], some [⟨"m1".toList⟩, ⟨"m2".toList⟩], 0, 1, 0⟩ :=
  ⟨by decide, by decide, by decide, by decide, by decide⟩

/-- C20 (evaluation at the failing input): three folders are visible and the
folder cursor is on 5: `drawMaildir` puts the cursor on the first index 0, not
on the last index 2, whereas `drawIndex` and `drawMessage`, with three
messages and the message cursor on 5, put it on the last index 2; and when
no folder is visible `drawMaildir` leaves the cursor on 5. -/
theorem drawMaildir_does_not_clamp_to_last :
    (drawMaildir ⟨["a".toList, "b".toList, "c".toList], [], none, 5, 0, 0⟩).selected_folder
      = 0 ∧
    (0 : Int) ≠ (["a".toList, "b".toList, "c".toList].length : Nat) - 1 ∧
    (drawIndex ⟨[], [], some [⟨"a".toList⟩, ⟨"b".toList⟩, ⟨"c".toList⟩], 0, 5, 0⟩).selected_message
      = 2 ∧
    drawMessage ⟨[], [], some [⟨"a".toList⟩, ⟨"b".toList⟩, ⟨"c".toList⟩], 0, 5, 0⟩
      = Result.ok ⟨[], [], some [⟨"a".toList⟩, ⟨"b".toList⟩, ⟨"c".toList⟩], 0, 2, 0⟩ ∧
    (drawMaildir ⟨[], [], none, 5, 0, 0⟩).selected_folder = 5 :=
  ⟨by decide, by decide, by decide, by decide, by decide⟩

/-! ## Folder selection and saving (C21, C22) -/

/-- C21 (evaluation at the failing input, with what does hold): toggling a
path flips its membership in the selected folders, keeps the membership of
every other path and installs the rebuilt message list, but the message
cursor is left where it was: with the cursor on 3, toggling "inbox" leaves
it on 3, not on 0. -/
theorem toggle_keeps_message_cursor (rebuilt : List CMessage) (p : List Char) (g : CGlobal) :
    (∃ g2, toggle_selected_folder rebuilt (some p) g = Result.ok g2 ∧
      g2.selected_message = g.selected_message ∧ g2.messages = some rebuilt ∧
      (p ∈ g2.selected_folders ↔ p ∉ g.selected_folders) ∧
      ∀ q, q ≠ p → (q ∈ g2.selected_folders ↔ q ∈ g.selected_folders)) ∧
    toggle_selected_folder [⟨"Mail/lists/new/1".toList⟩] (some "Mail/lists".toList)
        ⟨["Mail/inbox".toList, "Mail/lists".toList], ["Mail/inbox".toList],
          some [⟨"m1".toList⟩, ⟨"m2".toList⟩, ⟨"m3".toList⟩, ⟨"m4".toList⟩], 0, 3, 0⟩
      = Result.ok ⟨["Mail/inbox".toList, "Mail/lists".toList],
          ["Mail/inbox".toList, "Mail/lists".toList], some [⟨"Mail/lists/new/1".toList⟩],
          0, 3, 0⟩ ∧
    toggle_selected_folder [] none ⟨[], ["Mail/inbox".toList], some [], 0, 3, 0⟩
      = Result.ok ⟨[], ["Mail/inbox".toList], some [], 0, 3, 0⟩ := by
  refine ⟨?_, by decide, by decide⟩
  unfold toggle_selected_folder
  simp only
  by_cases hp : p ∈ g.selected_folders
  · refine ⟨_, rfl, ?_, ?_, ?_, ?_⟩
    · simp only [hp, if_true]; rfl
    · rfl
    · simp only [hp, if_true, CGlobal.remove_folder, CGlobal.update_messages, not_true_eq_false,
        iff_false, List.mem_filter, bne_self_eq_false, Bool.false_eq_true, and_false,
        not_false_eq_true]
    · intro q hq
      simp only [hp, if_true, CGlobal.remove_folder, CGlobal.update_messages, List.mem_filter,
        bne_iff_ne, ne_eq, hq, not_false_eq_true, and_true]
  · refine ⟨_, rfl, ?_, ?_, ?_, ?_⟩
    · simp only [hp, if_false]; rfl
    · rfl
    · simp only [hp, if_false, CGlobal.add_folder, CGlobal.update_messages, List.mem_append,
        List.mem_singleton, or_true, not_false_eq_true]
    · intro q hq
      simp only [hp, if_false, CGlobal.add_folder, CGlobal.update_messages, List.mem_append,
        List.mem_singleton, hq, or_false]

/-- C22 (evaluation at the failing inputs): the copy of
"Maildir/cur/1234.host:2,S" to "Mail/old/cur/77" fails, and `save_message`
still requests the removal of the source right after it; and when
`CMaildir::message_in` generates no name (the empty string) `save_message`
requests the copy to that empty name and then the removal of the source. -/
theorem save_message_unlinks_after_failed_copy :
    save_message 5 true (fun _ _ => "Mail/old/cur/77".toList) (fun _ _ => false) []
        "Mail/old".toList ⟨[], [], some [⟨"Maildir/cur/1234.host:2,S".toList⟩], 0, 0, 0⟩ =
      some (Result.ok ([FileCall.copy "Maildir/cur/1234.host:2,S".toList
          "Mail/old/cur/77".toList false,
          FileCall.unlink "Maildir/cur/1234.host:2,S".toList],
        ⟨[], [], some [], 0, 0, 0⟩)) ∧
    save_message 5 true (fun _ _ => []) (fun _ dst => !dst.isEmpty) []
        "Mail/old".toList ⟨[], [], some [⟨"Maildir/cur/1234.host:2,S".toList⟩], 0, 0, 0⟩ =
      some (Result.ok ([FileCall.copy "Maildir/cur/1234.host:2,S".toList [] false,
          FileCall.unlink "Maildir/cur/1234.host:2,S".toList],
        ⟨[], [], some [], 0, 0, 0⟩)) := by
  decide

/-! ## Formatting (C23 to C25) -/

namespace CMessage

theorem format_pass_no_token (fuel : Nat) (file : MessageFile) (self : CMessage)
    (result name : List Char) (h : ¬ name <:+: result) :
    format_pass fuel file self result name = some (Result.ok result) := by
  unfold format_pass
  rw [(find_eq_none_iff result name).mpr h]

theorem format_loop_no_token (fuel : Nat) (file : MessageFile) (self : CMessage)
    (names : List (List Char)) (result : List Char)
    (h : ∀ name ∈ names, ¬ name <:+: result) :
    format_loop fuel file self names result = some (Result.ok result) := by
  induction names with
  | nil => rfl
  | cons n rest ih =>
    rw [format_loop, format_pass_no_token fuel file self result n (h n (by simp))]
    exact ih (fun m hm => h m (List.mem_cons_of_mem _ hm))

theorem format_loop_skip (fuel : Nat) (file : MessageFile) (self : CMessage)
    (l1 l2 : List (List Char)) (result : List Char)
    (h : ∀ name ∈ l1, ¬ name <:+: result) :
    format_loop fuel file self (l1 ++ l2) result = format_loop fuel file self l2 result := by
  induction l1 with
  | nil => rfl
  | cons n rest ih =>
    rw [List.cons_append, format_loop,
      format_pass_no_token fuel file self result n (h n (by simp))]
    exact ih (fun m hm => h m (List.mem_cons_of_mem _ hm))

theorem format_pass_token (fuel : Nat) (file : MessageFile) (self : CMessage)
    (pre post T value : List Char) (c : Char)
    (hfirst : find (pre ++ c :: T ++ post) T = some (pre.length + 1))
    (hsize : pre.length < 18446744073709551616)
    (hval : expand_body fuel file self T = some (Result.ok value)) :
    format_pass fuel file self (pre ++ c :: T ++ post) T
      = some (Result.ok (pre ++ value ++ post)) := by
  unfold format_pass
  rw [hfirst]
  have hlt : pre.length + 1 < (pre ++ c :: T ++ post).length := by
    have hT : T ≠ [] := by
      rintro rfl
      have : find (pre ++ c :: [] ++ post) [] = some 0 := by
        cases pre <;> simp [find]
      rw [this] at hfirst
      simp at hfirst
    have := List.length_pos.mpr hT
    simp only [List.length_append, List.length_cons]
    omega
  have hmod : (pre.length + 1 + 18446744073709551615) % 18446744073709551616 = pre.length := by
    omega
  have htake : List.take pre.length (pre ++ c :: T ++ post) = pre := by
    rw [List.append_assoc, List.take_left]
  have hdrop : List.drop (pre.length + 1 + T.length) (pre ++ c :: T ++ post) = post := by
    have e : pre ++ c :: T ++ post = (pre ++ c :: T) ++ post := rfl
    rw [e, show pre.length + 1 + T.length = (pre ++ c :: T).length by
      simp only [List.length_append, List.length_cons]; omega, List.drop_left]
  simp only [hlt, if_true, hmod, htake, hdrop, hval]

end CMessage

/-- C23: for every message and every non-empty template in which none of the
tokens FLAGS, FROM, TO, SUBJECT, DATE, YEAR, MONTH, DAY occurs, `format`
returns the template unchanged. -/
theorem format_without_token (fuel : Nat) (index_format : List Char) (file : MessageFile)
    (self : CMessage) (fmt : List Char) (hne : fmt ≠ [])
    (hno : ∀ name ∈ CMessage.fields, ¬ name <:+: fmt) :
    CMessage.format fuel index_format file self fmt = some (Result.ok fmt) := by
  unfold CMessage.format
  have : fmt.isEmpty = false := by cases fmt <;> simp at hne ⊢
  simp only [this, Bool.false_eq_true, if_false]
  exact CMessage.format_loop_no_token fuel file self CMessage.fields fmt hno

/-- Witness for C23: the template "[new] mail from lower-case words". -/
theorem format_without_token_witness :
    CMessage.format 0 "$FROM".toList
      ⟨"bob".toList, "al".toList, "hi".toList, [], none, [], false⟩
      ⟨"Maildir/cur/1234.host:2,S".toList⟩ "[new] mail from lower-case words".toList
      = some (Result.ok "[new] mail from lower-case words".toList) :=
  format_without_token 0 "$FROM".toList
    ⟨"bob".toList, "al".toList, "hi".toList, [], none, [], false⟩
    ⟨"Maildir/cur/1234.host:2,S".toList⟩ "[new] mail from lower-case words".toList
    (by decide)
    (by
      intro name hname
      rw [← find_eq_none_iff]
      simp only [CMessage.fields, List.mem_cons, List.mem_singleton, List.not_mem_nil,
        or_false] at hname
      rcases hname with rfl | rfl | rfl | rfl | rfl | rfl | rfl | rfl <;> decide)

/-- C24 (as amended): in a template pre ++ [c] ++ T ++ post, where the token
T stands at its first occurrence behind one character c (the sigil, as in
"$FROM"), no other token occurs in the template, and no other token occurs
in pre ++ value ++ post, `format` returns pre ++ value ++ post: the token and
the character in front of it are replaced by the value of the token. -/
theorem format_replaces_sigil_and_token (fuel : Nat) (index_format : List Char)
    (file : MessageFile) (self : CMessage) (pre post T value : List Char) (c : Char)
    (hT : T ∈ CMessage.fields)
    (hfirst : find (pre ++ c :: T ++ post) T = some (pre.length + 1))
    (hsize : pre.length < 18446744073709551616)
    (honly : ∀ name ∈ CMessage.fields, name ≠ T → ¬ name <:+: pre ++ c :: T ++ post)
    (hval : CMessage.expand_body fuel file self T = some (Result.ok value))
    (hres : ∀ name ∈ CMessage.fields, name ≠ T → ¬ name <:+: pre ++ value ++ post) :
    CMessage.format fuel index_format file self (pre ++ c :: T ++ post)
      = some (Result.ok (pre ++ value ++ post)) := by
  unfold CMessage.format
  have hne : (pre ++ c :: T ++ post).isEmpty = false := by
    cases pre <;> simp
  simp only [hne, Bool.false_eq_true, if_false]
  obtain ⟨l1, l2, hsplit⟩ := List.append_of_mem hT
  have hnd : CMessage.fields.Nodup := by decide
  rw [hsplit] at hnd
  have hnot : T ∉ l1 ++ l2 := (List.nodup_cons.mp (List.nodup_middle.mp hnd)).1
  have h1 : ∀ name ∈ l1, name ∈ CMessage.fields ∧ name ≠ T := by
    intro name hn
    refine ⟨by rw [hsplit]; exact List.mem_append_left _ hn, ?_⟩
    rintro rfl
    exact hnot (List.mem_append_left _ hn)
  have h2 : ∀ name ∈ l2, name ∈ CMessage.fields ∧ name ≠ T := by
    intro name hn
    refine ⟨by rw [hsplit]; exact List.mem_append_right _ (List.mem_cons_of_mem _ hn), ?_⟩
    rintro rfl
    exact hnot (List.mem_append_right _ hn)
  rw [hsplit, CMessage.format_loop_skip fuel file self l1 (T :: l2) _
    (fun name hn => honly name (h1 name hn).1 (h1 name hn).2)]
  rw [CMessage.format_loop,
    CMessage.format_pass_token fuel file self pre post T value c hfirst hsize hval]
  exact CMessage.format_loop_no_token fuel file self l2 _
    (fun name hn => hres name (h2 name hn).1 (h2 name hn).2)

/-- Witness for C24: the template "a $FROM b" with the sender "bob". -/
theorem format_replaces_sigil_and_token_witness :
    CMessage.format 0 [] ⟨"bob".toList, "al".toList, "hi".toList, [], none, [], false⟩
      ⟨"Maildir/cur/1234.host:2,S".toList⟩
      ("a ".toList ++ '$' :: ['F', 'R', 'O', 'M'] ++ " b".toList)
      = some (Result.ok ("a ".toList ++ "bob".toList ++ " b".toList)) :=
  format_replaces_sigil_and_token 0 []
    ⟨"bob".toList, "al".toList, "hi".toList, [], none, [], false⟩
    ⟨"Maildir/cur/1234.host:2,S".toList⟩ "a ".toList " b".toList ['F', 'R', 'O', 'M']
    "bob".toList '$' (by decide) (by decide) (by decide)
    (by
      intro name hname hne
      rw [← find_eq_none_iff]
      simp only [CMessage.fields, List.mem_cons, List.mem_singleton, List.not_mem_nil,
        or_false] at hname
      rcases hname with rfl | rfl | rfl | rfl | rfl | rfl | rfl | rfl <;>
        first | exact absurd rfl hne | decide)
    rfl
    (by
      intro name hname hne
      rw [← find_eq_none_iff]
      simp only [CMessage.fields, List.mem_cons, List.mem_singleton, List.not_mem_nil,
        or_false] at hname
      rcases hname with rfl | rfl | rfl | rfl | rfl | rfl | rfl | rfl <;>
        first | exact absurd rfl hne | decide)

/-- C24 (counterexample): with the sender "bob", the template "a FROM b"
gives "abob b" (the blank in front of the token is lost), not "a bob b"; and
"FROM b", where nothing stands in front of the token, gives "FROM bbob b". -/
theorem format_drops_char_before_token :
    CMessage.format 0 [] ⟨"bob".toList, "al".toList, "hi".toList, [], none, [], false⟩
      ⟨"Maildir/cur/1234.host:2,S".toList⟩ "a FROM b".toList
      = some (Result.ok "abob b".toList) ∧
    "abob b".toList ≠ "a ".toList ++ "bob".toList ++ " b".toList ∧
    CMessage.format 0 [] ⟨"bob".toList, "al".toList, "hi".toList, [], none, [], false⟩
      ⟨"Maildir/cur/1234.host:2,S".toList⟩ "FROM b".toList
      = some (Result.ok "FROM bbob b".toList) ∧
    "FROM bbob b".toList ≠ "bob".toList ++ " b".toList :=
  ⟨by decide, by decide, by decide, by decide⟩

/-- C25 (as amended): the DATE value of a message is the text of its Date
header whenever it has one, whether or not a date format parses it; without
a Date header it is the modification time of the file, when `stat`
succeeds. -/
theorem date_header_or_mtime (file : MessageFile) :
    (file.hdr_date ≠ [] → CMessage.date file TDate.EDATE = Result.ok file.hdr_date) ∧
    (file.hdr_date = [] → ∀ text, file.mtime = some text →
      CMessage.date file TDate.EDATE = Result.ok text) := by
  constructor
  · intro h
    unfold CMessage.date
    have : file.hdr_date.isEmpty = false := by
      cases hd : file.hdr_date with
      | nil => exact absurd hd h
      | cons a as => rfl
    simp only [this, Bool.false_eq_true, if_false, if_true]
  · intro h text ht
    unfold CMessage.date
    simp only [h, ht, List.isEmpty_nil, if_true]

/-- Witness for C25: a message with the Date header "Thu, 1 Jan 2013", and
one without a Date header whose file was modified at "Wed Jan  2 2013". -/
theorem date_header_or_mtime_witness :
    CMessage.date ⟨[], [], [], "Thu, 1 Jan 2013".toList, some "Wed Jan  2 2013".toList, [1],
        false⟩ TDate.EDATE = Result.ok "Thu, 1 Jan 2013".toList ∧
    CMessage.date ⟨[], [], [], [], some "Wed Jan  2 2013".toList, [], false⟩ TDate.EDATE
      = Result.ok "Wed Jan  2 2013".toList :=
  ⟨(date_header_or_mtime ⟨[], [], [], "Thu, 1 Jan 2013".toList,
      some "Wed Jan  2 2013".toList, [1], false⟩).1 (by decide),
   (date_header_or_mtime ⟨[], [], [], [], some "Wed Jan  2 2013".toList, [], false⟩).2 rfl
      "Wed Jan  2 2013".toList rfl⟩

/-- C25 (counterexample): the Date header "not a date" is parsed by neither
of two date formats (the day stays 0 after both), and the DATE value is
still "not a date", not the modification time "Wed Jan  2 2013". -/
theorem date_keeps_unparsed_header :
    parseDateFmt [0, 0] = false ∧
    CMessage.date ⟨[], [], [], "not a date".toList, some "Wed Jan  2 2013".toList, [0, 0],
        false⟩ TDate.EDATE = Result.ok "not a date".toList ∧
    "not a date".toList ≠ "Wed Jan  2 2013".toList :=
  ⟨by decide, by decide, by decide⟩

/-! ## The line editor, the reply header and the message lookup (C26 to C28) -/

/-- C26 (evaluation at the failing input): with a buffer of 3 characters, the
keys "a", "b", LEFT, "c" leave three characters in the buffer: the test
before an insertion looks at the cursor `pos`, which LEFT has moved back to
1, and not at `len`, so `len` becomes 3 and exceeds buflen-1 = 2. -/
theorem readline_exceeds_buffer (hist : List (List Char)) :
    readline_keys hist 3 [Key.printable 'a', Key.printable 'b', Key.left, Key.printable 'c']
        (readline_init hist)
      = Result.ok ⟨['a', 'c', 'b'], 2, 3, hist.length, []⟩ ∧
    ¬ ((3 : Int) ≤ 3 - 1) :=
  ⟨rfl, by decide⟩

/-- C27 (evaluation at the failing input): for the Message-ID
"<abc@host> (comment)" no References header is written at all, since the
text is erased from its start through the closing parenthesis; with text
behind the comment only that text is written; a Message-ID without an
opening parenthesis is written unchanged. -/
theorem reply_references_loses_id :
    reply_references "<abc@host> (comment)".toList = none ∧
    reply_references "<abc@host> (comment) tail".toList = some " tail".toList ∧
    reply_references "<abc@host>".toList = some "<abc@host>".toList ∧
    (∀ ref : List Char, ref ≠ [] → IsCString ref → '(' ∉ ref →
      reply_references ref = some ref) := by
  refine ⟨by decide, by decide, by decide, ?_⟩
  intro ref hne hc hp
  unfold reply_references
  have h1 : ref.isEmpty = false := by cases ref <;> simp at hne ⊢
  have h2 : (find_char ref '(').isSome = false := by
    rw [← Bool.not_eq_true, find_char_isSome_iff]; exact hp
  simp only [h1, h2, Bool.false_eq_true, if_false, c_str_eq_self ref hc]

/-- C28 (evaluation at the failing input): with two messages and the cursor
on 2, the test `selected > count` lets the lookup through and the list is
read at index 2, outside its bounds, by `get_message_for_operation` and by
`current_message`; so it is for every non-empty list with the cursor on
count, and for a cursor below 0. -/
theorem message_lookup_reads_past_end :
    get_message_for_operation none ⟨[], [], some [⟨"m1".toList⟩, ⟨"m2".toList⟩], 0, 2, 0⟩
      = Result.out_of_range ∧
    current_message ⟨[], [], some [⟨"m1".toList⟩, ⟨"m2".toList⟩], 0, 2, 0⟩
      = Result.out_of_range ∧
    get_message_for_operation none ⟨[], [], some [⟨"m1".toList⟩, ⟨"m2".toList⟩], 0, -1, 0⟩
      = Result.out_of_range ∧
    (∀ (g : CGlobal) (msgs : List CMessage), g.messages = some msgs → 1 ≤ msgs.length →
      g.selected_message = msgs.length →
      get_message_for_operation none g = Result.out_of_range ∧
        current_message g = Result.out_of_range) := by
  refine ⟨by decide, by decide, by decide, ?_⟩
  intro g msgs hm h1 hs
  have hcnt : ¬ ((msgs.length : Int) < 1 ∨ g.selected_message > (msgs.length : Int)) := by
    omega
  have hat : ∀ {α : Type} (v : List α), vector_at v (v.length : Int) = none := by
    intro α v
    unfold vector_at
    have : ¬ ((v.length : Int) < 0) := by omega
    simp only [this, if_false, Int.toNat_ofNat]
    exact List.getElem?_eq_none (le_refl _)
  rw [hs] at hcnt
  unfold get_message_for_operation current_message
  simp only [hm, hs, hcnt, if_false, hat msgs, and_self]

/-! ## Read and new again (C29) -/

theorem find_cur_after_swap (b a : List Char) (h : ¬ CUR_DIR <:+: b ++ ['/']) :
    find (b ++ CUR_DIR ++ a) CUR_DIR = some b.length := by
  induction b with
  | nil => simp [find]
  | cons x bs ih =>
    rw [List.cons_append, List.infix_cons_iff, not_or] at h
    have hnp : ¬ (CUR_DIR.isPrefixOf (x :: bs ++ CUR_DIR ++ a) = true) := by
      intro hp
      apply h.1
      match bs, hp with
      | [], hp => simp at hp
      | [y], hp => simp at hp
      | [y, z], hp => simp at hp
      | [y, z, w], hp =>
        simp at hp
        obtain ⟨rfl, rfl, rfl, rfl⟩ := hp
        exact ⟨[], rfl⟩
      | y :: z :: w :: v :: r, hp =>
        simp at hp
        obtain ⟨rfl, rfl, rfl, rfl, rfl⟩ := hp
        exact ⟨r ++ ['/'], rfl⟩
    simp only [List.cons_append] at hnp ⊢
    rw [find]
    simp only [hnp, if_false]
    have := ih h.2
    simp only [List.append_assoc] at this ⊢
    rw [this]
    simp

theorem find_new_after_swap (b a : List Char) (h : ¬ NEW_DIR <:+: b ++ ['/']) :
    find (b ++ NEW_DIR ++ a) NEW_DIR = some b.length := by
  induction b with
  | nil => simp [find]
  | cons x bs ih =>
    rw [List.cons_append, List.infix_cons_iff, not_or] at h
    have hnp : ¬ (NEW_DIR.isPrefixOf (x :: bs ++ NEW_DIR ++ a) = true) := by
      intro hp
      apply h.1
      match bs, hp with
      | [], hp => simp at hp
      | [y], hp => simp at hp
      | [y, z], hp => simp at hp
      | [y, z, w], hp =>
        simp at hp
        obtain ⟨rfl, rfl, rfl, rfl⟩ := hp
        exact ⟨[], rfl⟩
      | y :: z :: w :: v :: r, hp =>
        simp at hp
        obtain ⟨rfl, rfl, rfl, rfl, rfl⟩ := hp
        exact ⟨r ++ ['/'], rfl⟩
    simp only [List.cons_append] at hnp ⊢
    rw [find]
    simp only [hnp, if_false]
    have := ih h.2
    simp only [List.append_assoc] at this ⊢
    rw [this]
    simp

theorem find_some_length_le (s needle : List Char) (k : Nat) (hne : needle ≠ [])
    (h : find s needle = some k) : (s.take k).length = k := by
  have hs := (find_some_split s needle k hne h).1
  have hpos : 0 < needle.length := List.length_pos.mpr hne
  have hk : k ≤ s.length := by
    by_contra hk
    have ht : s.take k = s := List.take_of_length_le (by omega)
    rw [ht] at hs
    have hl := congrArg List.length hs
    simp only [List.length_append, List.length_drop] at hl
    omega
  rw [List.length_take]
  exact Nat.min_eq_left hk

namespace CMessage

theorem mark_new_cur_branch (fuel : Nat) (rename move : List Char → List Char → Bool)
    (before after : List Char)
    (hfirst : find (before ++ CUR_DIR ++ after) CUR_DIR = some before.length) :
    mark_new fuel rename move ⟨before ++ CUR_DIR ++ after⟩ =
      if rename (before ++ CUR_DIR ++ after) (before ++ NEW_DIR ++ after) = true then
        some (true, ⟨⟨before ++ NEW_DIR ++ after⟩,
          [⟨before ++ CUR_DIR ++ after, before ++ NEW_DIR ++ after, true⟩]⟩)
      else
        some (false, ⟨⟨before ++ CUR_DIR ++ after⟩,
          [⟨before ++ CUR_DIR ++ after, before ++ NEW_DIR ++ after, false⟩]⟩) := by
  have htake : List.take before.length (before ++ CUR_DIR ++ after) = before := by
    rw [List.append_assoc, List.take_left]
  have hdrop : List.drop (before.length + 5) (before ++ CUR_DIR ++ after) = after := by
    rw [List.append_assoc, List.drop_append]
    rfl
  unfold mark_new
  simp only [path, set_path, hfirst, htake, hdrop]

end CMessage

/-- C29: with renames that succeed, `mark_read` followed by `mark_new` on a
path that contains "/new/" and no "/cur/" gives back the path, and so does
`mark_new` followed by `mark_read` on a path that contains "/cur/" and no
"/new/". -/
theorem mark_read_mark_new_round_trip (fuel : Nat) (rename move : List Char → List Char → Bool)
    (p : List Char) (hren : ∀ src dst, rename src dst = true) :
    (NEW_DIR <:+: p → ¬ CUR_DIR <:+: p →
      ∃ st1 st2, CMessage.mark_read fuel rename move ⟨p⟩ = some (true, st1) ∧
        CMessage.mark_new fuel rename move st1.msg = some (true, st2) ∧
        st2.msg.m_path = p) ∧
    (CUR_DIR <:+: p → ¬ NEW_DIR <:+: p →
      ∃ st1 st2, CMessage.mark_new fuel rename move ⟨p⟩ = some (true, st1) ∧
        CMessage.mark_read fuel rename move st1.msg = some (true, st2) ∧
        st2.msg.m_path = p) := by
  constructor
  · intro hnew hcur
    have key : ∀ b a : List Char, p = b ++ NEW_DIR ++ a → find p NEW_DIR = some b.length →
        ∃ st1 st2, CMessage.mark_read fuel rename move ⟨p⟩ = some (true, st1) ∧
          CMessage.mark_new fuel rename move st1.msg = some (true, st2) ∧
          st2.msg.m_path = p := by
      intro b a hp hf
      subst hp
      have hb : ¬ CUR_DIR <:+: b ++ ['/'] := by
        intro h
        apply hcur
        exact h.trans ⟨[], ['n', 'e', 'w', '/'] ++ a, by simp⟩
      have h1 := CMessage.mark_read_new_branch fuel rename move b a hf
      rw [if_pos (hren _ _)] at h1
      have h2 := CMessage.mark_new_cur_branch fuel rename move b a (find_cur_after_swap b a hb)
      rw [if_pos (hren _ _)] at h2
      exact ⟨_, _, h1, h2, rfl⟩
    cases hf : find p NEW_DIR with
    | none => exact absurd hnew ((find_eq_none_iff _ _).mp hf)
    | some off =>
      have hs := (find_some_split p NEW_DIR off (by decide) hf).1
      have hl := find_some_length_le p NEW_DIR off (by decide) hf
      exact key (p.take off) (p.drop (off + NEW_DIR.length)) hs (by rw [hl]; exact hf)
  · intro hcur hnew
    have key : ∀ b a : List Char, p = b ++ CUR_DIR ++ a → find p CUR_DIR = some b.length →
        ∃ st1 st2, CMessage.mark_new fuel rename move ⟨p⟩ = some (true, st1) ∧
          CMessage.mark_read fuel rename move st1.msg = some (true, st2) ∧
          st2.msg.m_path = p := by
      intro b a hp hf
      subst hp
      have hb : ¬ NEW_DIR <:+: b ++ ['/'] := by
        intro h
        apply hnew
        exact h.trans ⟨[], ['c', 'u', 'r', '/'] ++ a, by simp⟩
      have h1 := CMessage.mark_new_cur_branch fuel rename move b a hf
      rw [if_pos (hren _ _)] at h1
      have h2 := CMessage.mark_read_new_branch fuel rename move b a (find_new_after_swap b a hb)
      rw [if_pos (hren _ _)] at h2
      exact ⟨_, _, h1, h2, rfl⟩
    cases hf : find p CUR_DIR with
    | none => exact absurd hcur ((find_eq_none_iff _ _).mp hf)
    | some off =>
      have hs := (find_some_split p CUR_DIR off (by decide) hf).1
      have hl := find_some_length_le p CUR_DIR off (by decide) hf
      exact key (p.take off) (p.drop (off + CUR_DIR.length)) hs (by rw [hl]; exact hf)

/-- Witness for C29: "Maildir/new/1234.host" read and made new again, and
"Maildir/cur/1234.host:2,S" made new and read again. -/
theorem mark_read_mark_new_round_trip_witness :
    (∃ st1 st2, CMessage.mark_read 0 (fun _ _ => true) (fun _ _ => true)
        ⟨"Maildir/new/1234.host".toList⟩ = some (true, st1) ∧
      CMessage.mark_new 0 (fun _ _ => true) (fun _ _ => true) st1.msg = some (true, st2) ∧
      st2.msg.m_path = "Maildir/new/1234.host".toList) ∧
    (∃ st1 st2, CMessage.mark_new 0 (fun _ _ => true) (fun _ _ => true)
        ⟨"Maildir/cur/1234.host:2,S".toList⟩ = some (true, st1) ∧
      CMessage.mark_read 0 (fun _ _ => true) (fun _ _ => true) st1.msg = some (true, st2) ∧
      st2.msg.m_path = "Maildir/cur/1234.host:2,S".toList) :=
  ⟨(mark_read_mark_new_round_trip 0 (fun _ _ => true) (fun _ _ => true)
      "Maildir/new/1234.host".toList (fun _ _ => rfl)).1
      ((find_isSome_iff _ _).mp (by decide)) ((find_eq_none_iff _ _).mp (by decide)),
   (mark_read_mark_new_round_trip 0 (fun _ _ => true) (fun _ _ => true)
      "Maildir/cur/1234.host:2,S".toList (fun _ _ => rfl)).2
      ((find_isSome_iff _ _).mp (by decide)) ((find_eq_none_iff _ _).mp (by decide))⟩

/-! ## The invariant of the line editor (C30) -/

theorem readline_key_invariant (hist : List (List Char)) (buflen : Int) (st : LineState)
    (k : Key) (hinv : LineInvariant hist st) :
    ∃ st1, readline_key hist buflen st k = Result.ok st1 ∧ LineInvariant hist st1 := by
  obtain ⟨h1, h2, h3, h4, h5⟩ := hinv
  cases k with
  | enter => exact ⟨st, rfl, h1, h2, h3, h4, h5⟩
  | other => exact ⟨st, rfl, h1, h2, h3, h4, h5⟩
  | printable c =>
    unfold readline_key
    by_cases hc : st.pos < buflen - 1
    · simp only [hc, if_true]
      exact ⟨_, rfl, by dsimp only; omega, by dsimp only; omega, h3, h4, h5⟩
    · simp only [hc, if_false]
      exact ⟨st, rfl, h1, h2, h3, h4, h5⟩
  | left =>
    unfold readline_key
    by_cases hc : st.pos > 0
    · simp only [hc, if_true]
      exact ⟨_, rfl, by dsimp only; omega, by dsimp only; omega, h3, h4, h5⟩
    · simp only [hc, if_false]
      exact ⟨st, rfl, h1, h2, h3, h4, h5⟩
  | right =>
    unfold readline_key
    by_cases hc : st.pos < st.len
    · simp only [hc, if_true]
      exact ⟨_, rfl, by dsimp only; omega, by dsimp only; omega, h3, h4, h5⟩
    · simp only [hc, if_false]
      exact ⟨st, rfl, h1, h2, h3, h4, h5⟩
  | backspace =>
    unfold readline_key
    by_cases hc : st.pos > 0
    · simp only [hc, if_true]
      exact ⟨_, rfl, by dsimp only; omega, by dsimp only; omega, h3, h4, h5⟩
    · simp only [hc, if_false]
      exact ⟨st, rfl, h1, h2, h3, h4, h5⟩
  | delete =>
    unfold readline_key
    by_cases hc : st.pos < st.len
    · simp only [hc, if_true]
      exact ⟨_, rfl, by dsimp only; omega, by dsimp only; omega, h3, h4, h5⟩
    · simp only [hc, if_false]
      exact ⟨st, rfl, h1, h2, h3, h4, h5⟩
  | up =>
    unfold readline_key
    by_cases hc : st.hoff - 1 ≥ 0
    · obtain ⟨ent, hent, _⟩ := vector_at_of_lt hist (st.hoff - 1) hc (by omega)
      simp only [hc, if_true, hent]
      refine ⟨_, rfl, by dsimp only; omega, by dsimp only; omega, by dsimp only; omega,
        by dsimp only; omega, ?_⟩
      intro h hh
      rcases List.mem_append.mp hh with hh | hh
      · exact h5 h hh
      · rw [List.mem_singleton.mp hh]; omega
    · simp only [hc, if_false]
      exact ⟨_, rfl, h1, h2, le_refl 0, by dsimp only; omega, h5⟩
  | down =>
    unfold readline_key
    by_cases hc : st.hoff + 1 < (hist.length : Int)
    · obtain ⟨ent, hent, _⟩ := vector_at_of_lt hist (st.hoff + 1) (by omega) hc
      simp only [hc, if_true, hent]
      refine ⟨_, rfl, by dsimp only; omega, by dsimp only; omega, by dsimp only; omega,
        by dsimp only; omega, ?_⟩
      intro h hh
      rcases List.mem_append.mp hh with hh | hh
      · exact h5 h hh
      · rw [List.mem_singleton.mp hh]; omega
    · simp only [hc, if_false]
      exact ⟨_, rfl, h1, h2, by dsimp only; omega, le_refl _, h5⟩

theorem readline_keys_invariant (hist : List (List Char)) (buflen : Int) (keys : List Key) :
    ∀ st, LineInvariant hist st →
      ∃ st1, readline_keys hist buflen keys st = Result.ok st1 ∧ LineInvariant hist st1 := by
  induction keys with
  | nil => intro st h; exact ⟨st, rfl, h⟩
  | cons k ks ih =>
    intro st h
    obtain ⟨st1, hk, hinv⟩ := readline_key_invariant hist buflen st k h
    cases k with
    | enter => exact ⟨st, rfl, h⟩
    | printable c => simp only [readline_keys, hk]; exact ih st1 hinv
    | left => simp only [readline_keys, hk]; exact ih st1 hinv
    | right => simp only [readline_keys, hk]; exact ih st1 hinv
    | up => simp only [readline_keys, hk]; exact ih st1 hinv
    | down => simp only [readline_keys, hk]; exact ih st1 hinv
    | backspace => simp only [readline_keys, hk]; exact ih st1 hinv
    | delete => simp only [readline_keys, hk]; exact ih st1 hinv
    | other => simp only [readline_keys, hk]; exact ih st1 hinv

/-- C30: for every history, buffer length and sequence of keys, the line
editor reaches a state (no history read fails) in which 0 <= pos <= len and
0 <= hoff <= history size, and every offset it passed to `CHistory::at` was
at least 0 and below the history size. -/
theorem readline_state_invariant (hist : List (List Char)) (buflen : Int) (keys : List Key) :
    ∃ st, readline_keys hist buflen keys (readline_init hist) = Result.ok st ∧
      LineInvariant hist st := by
  apply readline_keys_invariant
  refine ⟨le_refl 0, le_refl 0, ?_, le_refl _, ?_⟩
  · simp [readline_init]
  · intro h hh
    simp [readline_init] at hh

end Lumail
